import Mathlib

/-!
Verification development for the resume-matching core of the
AI-Resume-Matcher repository.

The source of truth is `src/src/pages/FilesPage.tsx` (similarity scorer
`calculateEnhancedSimilarity`, text normalizer `preprocessTextForEmbedding`,
embedding client `generateEmbedding` with its module cache, and the ranking
function `findSimilarResumes`) together with the job-description scoring
call site in `src/src/pages/ChatbotPage.tsx`.

Modelling conventions:
* JavaScript numbers are read as exact real numbers (`ℝ`); embedding
  vectors are `List ℝ`.  Values that the code manipulates only as integers
  (counters, lengths, 32-bit hash state) are `Nat`/`Int`.
* Strings are Lean `String`s, i.e. lists of characters; JavaScript string
  primitives (`trim`, `split`, `substring`, `toLowerCase`, `includes`) are
  re-implemented below on `List Char` following their ECMAScript semantics
  (restricted to the code points the properties exercise).
* The three regular expressions the code uses (the section-keyword count,
  the e-mail extractor and the phone extractor) are interpreted by a small
  backtracking matcher (`matchToks`) that implements the ECMAScript
  leftmost / greedy semantics for exactly the constructs those patterns
  use: character classes, bounded greedy repetition, literals, ordered
  alternation, optional groups and word boundaries.  The matcher takes a
  fuel parameter so that all definitions are structurally recursive and
  kernel-computable; the patterns at hand only ever need constant fuel
  per start position (fuel is spent per pattern token, never per input
  character, see `matchToks`).
* Network effects of the embedding client are modelled by passing in an
  explicit list of `FetchResponse`s, one consumed per `fetch` call; thrown
  exceptions that the function's own `try/catch` absorbs are modelled
  directly by the `catch` result (the empty vector), which is what the
  caller observes.
-/

set_option maxRecDepth 8000

/-! ### JavaScript character and string primitives -/

/-- Character class `\s` of ECMAScript regular expressions (and the
whitespace notion of `String.prototype.trim`), restricted to the
code points that occur in this development. -/
def jsIsSpace (c : Char) : Bool :=
  c = ' ' || c = '\t' || c = '\n' || c = '\r' ||
  c.val = 11 || c.val = 12 || c.val = 0xa0 || c.val = 0xfeff

/-- Word characters of ECMAScript `\b` / `\w`: `[A-Za-z0-9_]`. -/
def isWordChar (c : Char) : Bool :=
  ('A' ≤ c && c ≤ 'Z') || ('a' ≤ c && c ≤ 'z') || ('0' ≤ c && c ≤ '9') || c = '_'

/-- `String.prototype.trim` on a character list. -/
def trimList (l : List Char) : List Char :=
  ((l.dropWhile jsIsSpace).reverse.dropWhile jsIsSpace).reverse

/-- `s.substring(0, n)` (all strings in this development are BMP/ASCII, so
UTF-16 units coincide with characters). -/
def jsSubstr (s : String) (n : Nat) : String :=
  ⟨s.data.take n⟩

/-- Lower-casing as used by the code (`toLowerCase`); the inputs the
properties exercise are ASCII, where `Char.toLower` agrees with
ECMAScript. -/
def lowerList (l : List Char) : List Char :=
  l.map Char.toLower

/-- Is `pre` a prefix of `l` (character-wise)? -/
def isPrefixCh : List Char → List Char → Bool
  | [], _ => true
  | _ :: _, [] => false
  | c :: cs, d :: ds => c = d && isPrefixCh cs ds

/-- `hay.includes(needle)` of JavaScript (substring containment). -/
def includesL (needle : List Char) : List Char → Bool
  | [] => needle.isEmpty
  | c :: h' => isPrefixCh needle (c :: h') || includesL needle h'

/-- `l.split(sep)` of JavaScript for a single-character separator:
the chunks between occurrences of `sep`, keeping empty chunks. -/
def splitChar (sep : Char) : List Char → List (List Char)
  | [] => [[]]
  | c :: rest =>
    if c = sep then [] :: splitChar sep rest
    else
      match splitChar sep rest with
      | [] => [[c]]
      | w :: ws => (c :: w) :: ws

/-- The maximal non-whitespace chunks of `l`.  `t.split(/\s+/)` returns
these chunks, plus possibly empty strings at either end, which the code
always discards with its `length > 3` filter, so the two agree after that
filter. -/
def wsChunks : List Char → List (List Char)
  | [] => []
  | c :: rest =>
    if jsIsSpace c then wsChunks rest
    else
      match wsChunks rest with
      | [] => [[c]]
      | w :: ws =>
        if jsIsSpace (rest.headD ' ') then [c] :: w :: ws
        else (c :: w) :: ws

/-! ### A tiny backtracking regex interpreter

Just enough of ECMAScript regular expressions for the three patterns in
`FilesPage.tsx`: single-character classes, greedy bounded repetition of a
class, literal strings, ordered alternation of sequences, greedy optional
groups and word boundaries. -/

/-- One token of a regular expression. -/
inductive Tok where
  /-- a single character from a class -/
  | cls (p : Char → Bool)
  /-- greedy repetition of a class, at least `lo` times, at most `hi`
  (none = unbounded) -/
  | rep (p : Char → Bool) (lo : Nat) (hi : Option Nat)
  /-- a literal string -/
  | lit (s : List Char)
  /-- ordered alternation between alternative sequences -/
  | alt (gs : List (List Tok))
  /-- greedy optional group -/
  | opt (g : List Tok)
  /-- the word-boundary assertion of ECMAScript -/
  | wb

/-- Word-boundary test between the previous character (none at the start
of the input) and the next one (none at the end). -/
def isWB (prev next : Option Char) : Bool :=
  (match prev with | none => false | some c => isWordChar c) !=
  (match next with | none => false | some c => isWordChar c)

/-- Match a literal, threading the previous character and accumulating the
consumed characters (in reverse) into `acc`; calls the continuation on the
rest. -/
def matchLit (l : List Char) (prev : Option Char) (s acc : List Char)
    (k : Option Char → List Char → List Char → Option (List Char × List Char)) :
    Option (List Char × List Char) :=
  match l, s with
  | [], _ => k prev s acc
  | _ :: _, [] => none
  | c :: l', d :: s' => if d = c then matchLit l' (some d) s' (d :: acc) k else none

/-- Greedy repetition of the class `p`: consume as many characters as
possible (at most `hi`), then backtrack towards the minimum `lo`,
calling the continuation at each candidate split, longest first. -/
def matchRep (p : Char → Bool) (lo : Nat) (hi : Option Nat) (prev : Option Char)
    (s acc : List Char)
    (k : Option Char → List Char → List Char → Option (List Char × List Char)) :
    Option (List Char × List Char) :=
  let more :=
    match hi, s with
    | some 0, _ => none
    | _, [] => none
    | _, c :: s' =>
      if p c then matchRep p (lo - 1) (hi.map (· - 1)) (some c) s' (c :: acc) k else none
  match more with
  | some r => some r
  | none => if lo = 0 then k prev s acc else none

/-- Backtracking matcher for a sequence of tokens, in continuation-passing
style; `acc` accumulates the consumed characters in reverse.  `fuel` only
decreases when a token of the pattern is consumed or an alternative is
expanded, so any fuel exceeding the total expanded pattern size is enough;
`matchRep`/`matchLit` walk the input by structural recursion without using
fuel. -/
def matchToks : Nat → List Tok → Option Char → List Char → List Char →
    (Option Char → List Char → List Char → Option (List Char × List Char)) →
    Option (List Char × List Char)
  | 0, _, _, _, _, _ => none
  | _ + 1, [], prev, s, acc, k => k prev s acc
  | fuel + 1, t :: ts, prev, s, acc, k =>
    match t with
    | .cls p =>
      match s with
      | [] => none
      | c :: s' => if p c then matchToks fuel ts (some c) s' (c :: acc) k else none
    | .lit l => matchLit l prev s acc fun p' s' a' => matchToks fuel ts p' s' a' k
    | .wb => if isWB prev s.head? then matchToks fuel ts prev s acc k else none
    | .rep p lo hi => matchRep p lo hi prev s acc fun p' s' a' => matchToks fuel ts p' s' a' k
    | .opt g =>
      match matchToks fuel (g ++ ts) prev s acc k with
      | some r => some r
      | none => matchToks fuel ts prev s acc k
    | .alt gs =>
      gs.foldr (fun g acc' =>
        match matchToks fuel (g ++ ts) prev s acc k with
        | some r => some r
        | none => acc') none

/-- Fuel that is always sufficient for the fixed patterns below. -/
def patFuel : Nat := 1000

/-- Try to match `pat` at the current position: on success, return the
matched characters and the rest of the input. -/
def matchAt (pat : List Tok) (prev : Option Char) (s : List Char) :
    Option (List Char × List Char) :=
  matchToks patFuel pat prev s [] fun _ rest acc => some (acc.reverse, rest)

/-- All the (non-overlapping, leftmost, greedy) matches of a pattern in the
input, as `String.prototype.match` with the `g` flag produces them.  The
patterns used here can never match the empty string; if one did, the scan
just advances one character (recording nothing). -/
def scanMatches : Nat → List Tok → Option Char → List Char → List (List Char)
  | 0, _, _, _ => []
  | fuel + 1, pat, prev, s =>
    match matchAt pat prev s with
    | some ([], _) =>
      match s with
      | [] => []
      | c :: s' => scanMatches fuel pat (some c) s'
    | some (m :: ms, rest) => (m :: ms) :: scanMatches fuel pat (m :: ms).getLast? rest
    | none =>
      match s with
      | [] => []
      | c :: s' => scanMatches fuel pat (some c) s'

/-- All matches of `pat` in `s`. -/
def allMatches (pat : List Tok) (s : List Char) : List (List Char) :=
  scanMatches (s.length + 1) pat none s

/-! ### The three regular expressions of `FilesPage.tsx` -/

/-- Pattern of
`/\b(education|experience|skills|projects|achievements|work|employment)\b/gi`
(line 329 of `FilesPage.tsx`); case-insensitivity is obtained by running it
on the lower-cased input. -/
def sectionPat : List Tok :=
  [.wb,
   .alt [[.lit "education".data], [.lit "experience".data], [.lit "skills".data],
         [.lit "projects".data], [.lit "achievements".data], [.lit "work".data],
         [.lit "employment".data]],
   .wb]

/-- Pattern of `/\b[A-Za-z0-9._%+-]+@[A-Za-z0-9.-]+\.[A-Z|a-z]{2,}\b/g`
(the e-mail extractor; note the literal `|` inside the last class, faithfully
kept). -/
def emailPat : List Tok :=
  let localC : Char → Bool := fun c =>
    ('A' ≤ c && c ≤ 'Z') || ('a' ≤ c && c ≤ 'z') || ('0' ≤ c && c ≤ '9') ||
    c = '.' || c = '_' || c = '%' || c = '+' || c = '-'
  let domC : Char → Bool := fun c =>
    ('A' ≤ c && c ≤ 'Z') || ('a' ≤ c && c ≤ 'z') || ('0' ≤ c && c ≤ '9') ||
    c = '.' || c = '-'
  let tldC : Char → Bool := fun c =>
    ('A' ≤ c && c ≤ 'Z') || c = '|' || ('a' ≤ c && c ≤ 'z')
  [.wb, .rep localC 1 none, .cls (· = '@'), .rep domC 1 none,
   .cls (· = '.'), .rep tldC 2 none, .wb]

/-- Pattern of `/(\+?\d{1,3}[-.\s]?)?\(?\d{3}\)?[-.\s]?\d{3}[-.\s]?\d{4}/g`
(the phone extractor). -/
def phonePat : List Tok :=
  let digit : Char → Bool := fun c => '0' ≤ c && c ≤ '9'
  let sep : Char → Bool := fun c => c = '-' || c = '.' || jsIsSpace c
  [.opt [.rep (· = '+') 0 (some 1), .rep digit 1 (some 3), .rep sep 0 (some 1)],
   .rep (· = '(') 0 (some 1), .rep digit 3 (some 3), .rep (· = ')') 0 (some 1),
   .rep sep 0 (some 1), .rep digit 3 (some 3), .rep sep 0 (some 1),
   .rep digit 4 (some 4)]

/-! ### Similarity scorer (`calculateEnhancedSimilarity`, FilesPage 288-339) -/

/-- The qualifying keyword tokens of a text:
`text.toLowerCase().split(/\s+/).filter(word => word.length > 3)`. -/
def jsKeywords (t : String) : List (List Char) :=
  (wsChunks (lowerList t.data)).filter (fun w => 3 < w.length)

/-- `(text.match(/\b(education|experience|skills|projects|achievements|work|employment)\b/gi) || []).length`. -/
def sectionMatchCount (t : String) : Nat :=
  (allMatches sectionPat (lowerList t.data)).length

/-- Dot product `embedding1.reduce((sum, a, i) => sum + a * embedding2[i], 0)`
(used only after the length check has passed). -/
def dotR (a b : List ℝ) : ℝ :=
  (List.zipWith (fun x y => x * y) a b).sum

/-- Sum of squares `e.reduce((sum, a) => sum + a * a, 0)`. -/
def sumsqR (a : List ℝ) : ℝ :=
  (a.map (fun x => x * x)).sum

/-- Number of elements of `keywords1` that occur in `keywords2`
(`keywords1.filter(k => keywords2.includes(k)).length`; note the left list's
duplicates are counted). -/
def kwInterCount (t1 t2 : String) : Nat :=
  ((jsKeywords t1).filter (fun k => (jsKeywords t2).contains k)).length

/-- `Math.max(keywords1.length, keywords2.length, 1)`. -/
def kwDenom (t1 t2 : String) : Nat :=
  max (jsKeywords t1).length (max (jsKeywords t2).length 1)

/-- Keyword-overlap subscore of the scorer. -/
noncomputable def keywordScoreR (t1 t2 : String) : ℝ :=
  (kwInterCount t1 t2 : ℝ) / (kwDenom t1 t2 : ℝ)

/-- Section-structure subscore of the scorer:
`Math.min(sections1, sections2) / Math.max(sections1, sections2, 1)`. -/
noncomputable def sectionScoreR (t1 t2 : String) : ℝ :=
  (min (sectionMatchCount t1) (sectionMatchCount t2) : ℝ) /
  (max (sectionMatchCount t1) (max (sectionMatchCount t2) 1) : ℝ)

/-- Normalized cosine `Math.max(0, (cosineSim + 1) / 2)` with
`cosineSim = dot / (|a| * |b|)`. -/
noncomputable def normCosR (a b : List ℝ) : ℝ :=
  max 0 ((dotR a b / (Real.sqrt (sumsqR a) * Real.sqrt (sumsqR b)) + 1) / 2)

open Classical in
/-- `calculateEnhancedSimilarity` (FilesPage.tsx lines 288-339).  A missing
(`undefined`/`null`) embedding argument is `none`; `!embedding?.length`
is true exactly for `none` and for the empty list. -/
noncomputable def calculateEnhancedSimilarity :
    Option (List ℝ) → Option (List ℝ) → String → String → ℝ
  | some e1, some e2, text1, text2 =>
    if e1.length = 0 ∨ e2.length = 0 then 0
    else if e1.length ≠ e2.length then 0
    else
      let magnitude1 := Real.sqrt (sumsqR e1)
      let magnitude2 := Real.sqrt (sumsqR e2)
      if magnitude1 = 0 ∨ magnitude2 = 0 then 0
      else
        let cosineSim := dotR e1 e2 / (magnitude1 * magnitude2)
        let normalizedCosineSim := max 0 ((cosineSim + 1) / 2)
        normalizedCosineSim * 0.7 + keywordScoreR text1 text2 * 0.2 +
          sectionScoreR text1 text2 * 0.1
  | _, _, _, _ => 0

open Classical in
/-- The job-description scoring of `ChatbotPage.tsx` (lines 1042-1086): a
candidate is dropped (`null`) on dimension mismatch or a zero-magnitude
vector, and otherwise scored `0.7 * normalizedCosine + 0.3 * keyword`;
there is no section-structure term at this call site. -/
noncomputable def chatbotCandidateScore (jobEmb resumeEmb : List ℝ)
    (jobText resumeText : String) : Option ℝ :=
  if jobEmb.length ≠ resumeEmb.length then none
  else
    let normA := Real.sqrt (sumsqR jobEmb)
    let normB := Real.sqrt (sumsqR resumeEmb)
    if normA = 0 ∨ normB = 0 then none
    else
      let cosineSim := dotR jobEmb resumeEmb / (normA * normB)
      let normalizedSimilarity := max 0 ((cosineSim + 1) / 2)
      some (normalizedSimilarity * 0.7 + keywordScoreR jobText resumeText * 0.3)

/-! ### Text normalizer (`preprocessTextForEmbedding`, FilesPage 342-435) -/

/-- The skill keyword list of `preprocessTextForEmbedding`. -/
def skillKeywords : List (List Char) :=
  ["javascript".data, "typescript".data, "python".data, "react".data, "node".data,
   "sql".data, "aws".data, "azure".data, "docker".data, "kubernetes".data,
   "git".data, "agile".data, "scrum".data, "machine learning".data, "ai".data,
   "api".data, "database".data, "frontend".data, "backend".data, "fullstack".data,
   "mobile".data, "web".data, "cloud".data, "devops".data, "ci/cd".data]

/-- The experience keyword list of `preprocessTextForEmbedding`. -/
def experienceKeywords : List (List Char) :=
  ["years".data, "experience".data, "senior".data, "lead".data, "manager".data,
   "director".data, "architect".data, "developed".data, "implemented".data,
   "managed".data, "designed".data, "built".data, "created".data, "led".data]

/-- `text.split('\n').map(line => line.trim()).filter(line => line.length > 0)`. -/
def resumeLines (t : String) : List (List Char) :=
  ((splitChar '\n' t.data).map trimList).filter (fun l => 0 < l.length)

/-- The education-line predicate (substring membership on the lower-cased
line). -/
def eduPredL (line : List Char) : Bool :=
  let lower := lowerList line
  includesL "education".data lower || includesL "university".data lower ||
  includesL "college".data lower || includesL "degree".data lower ||
  includesL "bachelor".data lower || includesL "master".data lower ||
  includesL "phd".data lower

/-- The skills-line predicate. -/
def skillPredL (line : List Char) : Bool :=
  let lower := lowerList line
  includesL "skill".data lower || includesL "technolog".data lower ||
  includesL "programming".data lower || includesL "language".data lower ||
  skillKeywords.any (fun s => includesL s lower)

/-- The experience-line predicate. -/
def expPredL (line : List Char) : Bool :=
  let lower := lowerList line
  includesL "experience".data lower || includesL "work".data lower ||
  includesL "employment".data lower || includesL "position".data lower ||
  experienceKeywords.any (fun s => includesL s lower)

/-- The achievements/projects-line predicate. -/
def achPredL (line : List Char) : Bool :=
  let lower := lowerList line
  includesL "project".data lower || includesL "achievement".data lower ||
  includesL "accomplishment".data lower || includesL "award".data lower ||
  includesL "certification".data lower

/-- The education bucket of the normalizer. -/
def educationLinesOf (t : String) : List (List Char) := (resumeLines t).filter eduPredL

/-- The skills bucket of the normalizer. -/
def skillLinesOf (t : String) : List (List Char) := (resumeLines t).filter skillPredL

/-- The experience bucket of the normalizer. -/
def experienceLinesOf (t : String) : List (List Char) := (resumeLines t).filter expPredL

/-- The achievements bucket of the normalizer. -/
def achievementLinesOf (t : String) : List (List Char) := (resumeLines t).filter achPredL

/-- `text.match(emailRegex) || []`. -/
def emailMatchesOf (t : String) : List (List Char) := allMatches emailPat t.data

/-- `text.match(phoneRegex) || []`. -/
def phoneMatchesOf (t : String) : List (List Char) := allMatches phonePat t.data

/-- `preprocessTextForEmbedding` (FilesPage.tsx lines 342-435). -/
def preprocessTextForEmbedding (text : String) : String :=
  let emails := emailMatchesOf text
  let phones := phoneMatchesOf text
  let educationLines := educationLinesOf text
  let skillLines := skillLinesOf text
  let experienceLines := experienceLinesOf text
  let achievementLines := achievementLinesOf text
  let importantSections :=
    (match emails with | [] => [] | e :: _ => ["Email: ".data ++ e]) ++
    (match phones with | [] => [] | p :: _ => ["Phone: ".data ++ p]) ++
    (if educationLines.isEmpty then [] else "EDUCATION:".data :: educationLines.take 3) ++
    (if skillLines.isEmpty then [] else "SKILLS:".data :: skillLines.take 5) ++
    (if experienceLines.isEmpty then [] else "EXPERIENCE:".data :: experienceLines.take 8) ++
    (if achievementLines.isEmpty then [] else
      "PROJECTS & ACHIEVEMENTS:".data :: achievementLines.take 5)
  let processedText := List.intercalate "\n".data importantSections
  let processedText :=
    if 7500 < processedText.length then
      (List.intercalate "\n".data
        (skillLines.take 3 ++ experienceLines.take 5 ++ educationLines.take 2 ++
          achievementLines.take 3)).take 7500
    else processedText
  if processedText.isEmpty then ⟨text.data.take 7500⟩ else ⟨processedText⟩

/-! ### Hash, cache and embedding client (`generateEmbedding`, FilesPage 277-285 and 438-533) -/

/-- The base-36 digit characters used by `Number.prototype.toString(36)`. -/
def base36Digit (n : Nat) : Char :=
  if n < 10 then Char.ofNat (48 + n) else Char.ofNat (87 + n)

/-- Base-36 digits of `n`, most significant first (`fuel ≥ n` suffices). -/
def toBase36Aux : Nat → Nat → List Char
  | 0, _ => []
  | _ + 1, 0 => []
  | fuel + 1, n => toBase36Aux fuel (n / 36) ++ [base36Digit (n % 36)]

/-- `n.toString(36)` for a natural number. -/
def toBase36 (n : Nat) : String :=
  if n = 0 then "0" else ⟨toBase36Aux n n⟩

/-- Wrap an integer to the signed 32-bit range, as `| 0` / `& hash` does. -/
def toInt32 (n : Int) : Int := (n + 2 ^ 31) % 2 ^ 32 - 2 ^ 31

/-- One step of `createHash`:
`hash = ((hash << 5) - hash) + char; hash = hash & hash`. -/
def hashStep (hash : Int) (c : Nat) : Int :=
  toInt32 (toInt32 (hash * 32) - hash + c)

/-- The Unicode-safe `createHash` helper of `generateEmbedding`:
fold `hashStep` over the UTF-16 units, then `Math.abs(hash).toString(36)`. -/
def createHash (s : String) : String :=
  toBase36 ((s.data.foldl (fun h c => hashStep h c.toNat) 0).natAbs)

/-- `createHash(text.substring(0, 200) + '_3072d').substring(0, 20)`. -/
def cacheKey (text : String) : String :=
  jsSubstr (createHash (jsSubstr text 200 ++ "_3072d")) 20

/-- The embedding cache is a `Map<string, number[]>`; a JavaScript `Map`
iterates in insertion order and `set` on an existing key keeps the key's
original position, so it is modelled as an association list ordered by
insertion. -/
abbrev Cache := List (String × List ℚ)

/-- `map.get(k)` / `map.has(k)`. -/
def cacheLookup (c : Cache) (k : String) : Option (List ℚ) :=
  (c.find? (fun p => p.1 == k)).map (fun p => p.2)

/-- `map.set(k, v)`: update in place when the key exists (keeping its
position), otherwise append. -/
def mapSet (c : Cache) (k : String) (v : List ℚ) : Cache :=
  if (cacheLookup c k).isSome then
    c.map (fun p => if p.1 == k then (k, v) else p)
  else c ++ [(k, v)]

/-- The cache insertion of `generateEmbedding` (lines 518-526): `set`,
then, if the size exceeds 100, delete the first (oldest) key — but only
when that key is truthy, i.e. not the empty string (`if (firstKey)`). -/
def cachePutLimited (c : Cache) (k : String) (v : List ℚ) : Cache :=
  let c1 := mapSet c k v
  if 100 < c1.length then
    match c1 with
    | [] => []
    | (k0, _) :: rest => if k0 ≠ "" then rest else c1
  else c1

/-- Folding the client's cache-insertion step over a list of keys,
starting from the empty cache (the value stored is irrelevant to the
eviction behaviour; `[]` is used). -/
def insertKeys (ks : List String) : Cache :=
  ks.foldl (fun c k => cachePutLimited c k []) []

/-- Powers of two on `ℚ` by plain recursion (kernel-friendly). -/
def qpow2 : Nat → ℚ
  | 0 => 1
  | n + 1 => 2 * qpow2 n

/-- `Math.pow(2, e)` for an integer exponent `e` (negative exponents give
the exact dyadic fraction, as JavaScript's floating-point `Math.pow`
does for the small exponents that occur here). -/
def jsPow2 (e : Int) : ℚ :=
  if 0 ≤ e then qpow2 e.toNat else 1 / qpow2 (-e).toNat

/-- One remote response, as consumed by a single `fetch` call:
HTTP 429, any other non-2xx status, or a 2xx whose JSON yields
`data.data?.[0]?.embedding` (`none` when missing or not an array). -/
inductive FetchResponse where
  | rateLimited
  | httpError (status : Nat)
  | ok (payload : Option (List ℚ))

/-- Observable outcome of one `generateEmbedding` call: the returned
vector, the cache afterwards, how many `fetch` calls were issued, the
backoff delays awaited (in milliseconds) and the request payloads sent. -/
structure GenResult where
  result : List ℚ
  cache : Cache
  fetches : Nat
  delays : List ℚ
  sent : List String
  deriving Repr, DecidableEq

/-- The request payload actually sent: the preprocessed text, hard-capped
at 7500 characters
(`processedText.length > 7500 ? processedText.substring(0, 7500) : processedText`). -/
def finalTextOf (text : String) : String :=
  let processedText := preprocessTextForEmbedding text
  if 7500 < processedText.length then jsSubstr processedText 7500 else processedText

/-- `generateEmbedding(text, retries)` (FilesPage.tsx lines 438-533).
`responses` supplies one `FetchResponse` per `fetch` call; an exhausted
response list models the network itself failing (a rejected `fetch`),
which the function's `catch` turns into the empty vector.  Every `throw`
inside the `try` block is likewise absorbed by the `catch`, so the
function always returns a plain value — the `catch` results are inlined
at the point of the corresponding `throw`. -/
def generateEmbeddingAux (text : String) : Nat → Cache → List FetchResponse → GenResult
  | retries, cache, responses =>
    if (trimList text.data).length = 0 then ⟨[], cache, 0, [], []⟩
    else
      let textHash := cacheKey text
      match cacheLookup cache textHash with
      | some v => ⟨v, cache, 0, [], []⟩
      | none =>
        let finalText := finalTextOf text
        match responses with
        | [] => ⟨[], cache, 1, [], [finalText]⟩
        | .rateLimited :: rest =>
          match retries with
          | rr + 1 =>
            let waitTime : ℚ := jsPow2 ((4 : ℤ) - (rr + 1 : ℤ)) * 1000
            let r := generateEmbeddingAux text rr cache rest
            ⟨r.result, r.cache, r.fetches + 1, waitTime :: r.delays, finalText :: r.sent⟩
          | 0 => ⟨[], cache, 1, [], [finalText]⟩
        | .httpError _ :: _ => ⟨[], cache, 1, [], [finalText]⟩
        | .ok none :: _ => ⟨[], cache, 1, [], [finalText]⟩
        | .ok (some emb) :: _ =>
          if emb.length = 0 then ⟨[], cache, 1, [], [finalText]⟩
          else ⟨emb, cachePutLimited cache textHash emb, 1, [], [finalText]⟩

/-- `generateEmbedding(text)` with the default `retries = 3`. -/
def generateEmbedding (text : String) (cache : Cache)
    (responses : List FetchResponse) : GenResult :=
  generateEmbeddingAux text 3 cache responses

/-! ### Ranking engine (`findSimilarResumes`, FilesPage 914-932) -/

/-- A stored resume document as the ranking code sees it. -/
structure Resume where
  id : String
  embedding : Option (List ℝ)
  content : Option String

/-- JavaScript truthiness of `r.embedding`: `null`/`undefined` are falsy,
any array — even the empty one — is truthy. -/
def truthyEmbedding : Option (List ℝ) → Bool
  | none => false
  | some _ => true

/-- JavaScript truthiness of `r.content`: missing or the empty string are
falsy. -/
def truthyContent : Option String → Bool
  | none => false
  | some s => !s.isEmpty

/-- A corpus document together with its similarity score. -/
structure ScoredResume where
  doc : Resume
  similarity : ℝ

open Classical in
/-- Insert into a descending-sorted list, after all elements with a
strictly greater score and, because the fold below processes the list
from the right, before all equal-scored elements that originally came
later — the unique stable descending order that
`sort((a, b) => b.similarity - a.similarity)` produces. -/
noncomputable def insertDescBySim (x : ScoredResume) :
    List ScoredResume → List ScoredResume
  | [] => [x]
  | y :: ys =>
    if x.similarity < y.similarity then y :: insertDescBySim x ys else x :: y :: ys

/-- The stable descending sort used to model the ES2019 stable
`Array.prototype.sort` with comparator `(a, b) => b.similarity - a.similarity`. -/
noncomputable def stableSortDesc (l : List ScoredResume) : List ScoredResume :=
  l.foldr insertDescBySim []

/-- `findSimilarResumes(targetResume, count)` (FilesPage.tsx lines 914-932)
over the corpus `resumes`. -/
noncomputable def findSimilarResumes (resumes : List Resume) (targetResume : Resume)
    (count : Nat) : List ScoredResume :=
  if !truthyEmbedding targetResume.embedding || !truthyContent targetResume.content then []
  else
    let scored := (resumes.filter (fun r =>
        r.id != targetResume.id && truthyEmbedding r.embedding &&
        truthyContent r.content)).map (fun r =>
      ⟨r, calculateEnhancedSimilarity targetResume.embedding r.embedding
        (targetResume.content.getD "") (r.content.getD "")⟩)
    (stableSortDesc scored).take count

/-! ### Scorer arithmetic lemmas -/

lemma sumsqR_nonneg (a : List ℝ) : 0 ≤ sumsqR a := by
  apply List.sum_nonneg
  intro x hx
  rcases List.mem_map.mp hx with ⟨y, _, rfl⟩
  exact mul_self_nonneg y

lemma cs_step (x y A B D : ℝ) (hA : 0 ≤ A) (hB : 0 ≤ B) (h : D ^ 2 ≤ A * B) :
    (x * y + D) ^ 2 ≤ (x * x + A) * (y * y + B) := by
  rcases eq_or_lt_of_le hB with hB0 | hBpos
  · have hD : D = 0 := by nlinarith [sq_nonneg D]
    subst hD
    subst hB0
    nlinarith [mul_nonneg (mul_self_nonneg y) hA]
  · nlinarith [sq_nonneg (x * B - y * D),
      mul_nonneg (mul_self_nonneg y) (sub_nonneg.2 h),
      mul_nonneg (le_of_lt hBpos) (sub_nonneg.2 h), hBpos]

lemma dotR_sq_le (a : List ℝ) : ∀ b : List ℝ, dotR a b ^ 2 ≤ sumsqR a * sumsqR b := by
  induction a with
  | nil => intro b; simp [dotR, sumsqR]
  | cons x xs ih =>
    intro b
    cases b with
    | nil => simp [dotR, sumsqR]
    | cons y ys =>
      have h := ih ys
      have hA : 0 ≤ sumsqR xs := sumsqR_nonneg xs
      have hB : 0 ≤ sumsqR ys := sumsqR_nonneg ys
      simp only [dotR, sumsqR, List.zipWith_cons_cons, List.map_cons, List.sum_cons] at *
      exact cs_step x y _ _ _ hA hB h

lemma dotR_le_sqrt_mul (a b : List ℝ) :
    dotR a b ≤ Real.sqrt (sumsqR a) * Real.sqrt (sumsqR b) := by
  calc dotR a b ≤ |dotR a b| := le_abs_self _
    _ = Real.sqrt (dotR a b ^ 2) := (Real.sqrt_sq_eq_abs _).symm
    _ ≤ Real.sqrt (sumsqR a * sumsqR b) := Real.sqrt_le_sqrt (dotR_sq_le a b)
    _ = Real.sqrt (sumsqR a) * Real.sqrt (sumsqR b) :=
        Real.sqrt_mul (sumsqR_nonneg a) _

lemma keywordScoreR_nonneg (t1 t2 : String) : 0 ≤ keywordScoreR t1 t2 := by
  unfold keywordScoreR
  positivity

lemma kwInterCount_le_denom (t1 t2 : String) : kwInterCount t1 t2 ≤ kwDenom t1 t2 := by
  calc kwInterCount t1 t2 ≤ (jsKeywords t1).length := List.length_filter_le _ _
    _ ≤ kwDenom t1 t2 := le_max_left _ _

lemma kwDenom_pos (t1 t2 : String) : 0 < kwDenom t1 t2 := by
  unfold kwDenom
  omega

lemma keywordScoreR_le_one (t1 t2 : String) : keywordScoreR t1 t2 ≤ 1 := by
  unfold keywordScoreR
  rw [div_le_one (by exact_mod_cast kwDenom_pos t1 t2)]
  exact_mod_cast kwInterCount_le_denom t1 t2

lemma sectionScoreR_nonneg (t1 t2 : String) : 0 ≤ sectionScoreR t1 t2 := by
  unfold sectionScoreR
  positivity

lemma sectionDenom_pos (t1 t2 : String) :
    0 < max (sectionMatchCount t1) (max (sectionMatchCount t2) 1) := by
  omega

lemma sectionScoreR_le_one (t1 t2 : String) : sectionScoreR t1 t2 ≤ 1 := by
  unfold sectionScoreR
  rw [div_le_one (by exact_mod_cast sectionDenom_pos t1 t2)]
  have : min (sectionMatchCount t1) (sectionMatchCount t2) ≤
      max (sectionMatchCount t1) (max (sectionMatchCount t2) 1) :=
    le_trans (min_le_left _ _) (le_max_left _ _)
  exact_mod_cast this

lemma normCosR_nonneg (a b : List ℝ) : 0 ≤ normCosR a b := le_max_left 0 _

lemma normCosR_le_one (a b : List ℝ) (h1 : Real.sqrt (sumsqR a) ≠ 0)
    (h2 : Real.sqrt (sumsqR b) ≠ 0) : normCosR a b ≤ 1 := by
  have hp1 : 0 < Real.sqrt (sumsqR a) := lt_of_le_of_ne (Real.sqrt_nonneg _) (Ne.symm h1)
  have hp2 : 0 < Real.sqrt (sumsqR b) := lt_of_le_of_ne (Real.sqrt_nonneg _) (Ne.symm h2)
  have hcos : dotR a b / (Real.sqrt (sumsqR a) * Real.sqrt (sumsqR b)) ≤ 1 := by
    rw [div_le_one (mul_pos hp1 hp2)]
    exact dotR_le_sqrt_mul a b
  apply max_le (by norm_num)
  linarith

/-- Unfolding lemma for the non-degenerate path of the scorer: when both
embeddings are present, non-empty, of equal length and of non-zero
magnitude, the score is the fixed weighted combination of the three
subscores. -/
lemma calcSim_formula (a b : List ℝ) (t1 t2 : String)
    (hne : ¬(a.length = 0 ∨ b.length = 0)) (hlen : a.length = b.length)
    (hm : ¬(Real.sqrt (sumsqR a) = 0 ∨ Real.sqrt (sumsqR b) = 0)) :
    calculateEnhancedSimilarity (some a) (some b) t1 t2 =
      normCosR a b * 0.7 + keywordScoreR t1 t2 * 0.2 + sectionScoreR t1 t2 * 0.1 := by
  simp only [calculateEnhancedSimilarity, normCosR]
  rw [if_neg hne, if_neg (by simpa using hlen), if_neg hm]

lemma calcSim_len_mismatch (a b : List ℝ) (t1 t2 : String)
    (h : a.length ≠ b.length) :
    calculateEnhancedSimilarity (some a) (some b) t1 t2 = 0 := by
  simp only [calculateEnhancedSimilarity]
  by_cases h1 : a.length = 0 ∨ b.length = 0
  · rw [if_pos h1]
  · rw [if_neg h1, if_pos h]

lemma calcSim_zero_sumsq_left (a b : List ℝ) (t1 t2 : String) (hu : sumsqR a = 0) :
    calculateEnhancedSimilarity (some a) (some b) t1 t2 = 0 := by
  have hsq : Real.sqrt (sumsqR a) = 0 := by rw [hu, Real.sqrt_zero]
  simp only [calculateEnhancedSimilarity]
  split_ifs with g1 g2 g3 <;> try rfl
  exact absurd (Or.inl hsq) g3

lemma calcSim_zero_sumsq_right (a b : List ℝ) (t1 t2 : String) (hu : sumsqR b = 0) :
    calculateEnhancedSimilarity (some a) (some b) t1 t2 = 0 := by
  have hsq : Real.sqrt (sumsqR b) = 0 := by rw [hu, Real.sqrt_zero]
  simp only [calculateEnhancedSimilarity]
  split_ifs with g1 g2 g3 <;> try rfl
  exact absurd (Or.inr hsq) g3

/-- C2: every degenerate input — a missing or empty embedding on either
side, a length mismatch, or an all-zero (zero-magnitude) vector on either
side — makes the scorer return exactly 0, whatever the texts are. -/
theorem C2_scorer_degenerate_inputs_zero :
    (∀ (e : Option (List ℝ)) (t1 t2 : String),
      calculateEnhancedSimilarity none e t1 t2 = 0 ∧
      calculateEnhancedSimilarity e none t1 t2 = 0 ∧
      calculateEnhancedSimilarity (some []) e t1 t2 = 0 ∧
      calculateEnhancedSimilarity e (some []) t1 t2 = 0) ∧
    (∀ (a b : List ℝ) (t1 t2 : String), a.length ≠ b.length →
      calculateEnhancedSimilarity (some a) (some b) t1 t2 = 0) ∧
    (∀ (a b : List ℝ) (t1 t2 : String), (∀ x ∈ a, x = 0) →
      calculateEnhancedSimilarity (some a) (some b) t1 t2 = 0) ∧
    (∀ (a b : List ℝ) (t1 t2 : String), (∀ x ∈ b, x = 0) →
      calculateEnhancedSimilarity (some a) (some b) t1 t2 = 0) := by
  have hz0 : ∀ (l : List ℝ), (∀ x ∈ l, x = 0) → sumsqR l = 0 := by
    intro l hl
    apply List.sum_eq_zero
    intro x hx
    rcases List.mem_map.mp hx with ⟨y, hy, rfl⟩
    rw [hl y hy, mul_zero]
  refine ⟨?_, ?_, ?_, ?_⟩
  · intro e t1 t2
    refine ⟨rfl, ?_, ?_, ?_⟩ <;> cases e <;> simp [calculateEnhancedSimilarity]
  · exact fun a b t1 t2 h => calcSim_len_mismatch a b t1 t2 h
  · exact fun a b t1 t2 h => calcSim_zero_sumsq_left a b t1 t2 (hz0 a h)
  · exact fun a b t1 t2 h => calcSim_zero_sumsq_right a b t1 t2 (hz0 b h)

/-- C2 witness: the three degenerate examples from the specification. -/
theorem C2_scorer_degenerate_inputs_zero_witness :
    calculateEnhancedSimilarity (some []) (some [1, 2, 3]) "x" "y" = 0 ∧
    calculateEnhancedSimilarity (some [1, 2]) (some [1, 2, 3]) "x" "y" = 0 ∧
    calculateEnhancedSimilarity (some [0, 0]) (some [0, 0]) "x" "y" = 0 :=
  ⟨(C2_scorer_degenerate_inputs_zero.1 (some [1, 2, 3]) "x" "y").2.2.1,
   C2_scorer_degenerate_inputs_zero.2.1 [1, 2] [1, 2, 3] "x" "y" (by decide),
   C2_scorer_degenerate_inputs_zero.2.2.1 [0, 0] [0, 0] "x" "y" (by simp)⟩

/-- C3: for every pair of (possibly missing) embeddings and every pair of
texts, the score lies in the closed interval from 0 to 1 (exact
arithmetic). -/
theorem C3_score_in_unit_interval (e1 e2 : Option (List ℝ)) (t1 t2 : String) :
    0 ≤ calculateEnhancedSimilarity e1 e2 t1 t2 ∧
      calculateEnhancedSimilarity e1 e2 t1 t2 ≤ 1 := by
  match e1, e2 with
  | none, none => constructor <;> simp [calculateEnhancedSimilarity]
  | none, some b => constructor <;> simp [calculateEnhancedSimilarity]
  | some a, none => constructor <;> simp [calculateEnhancedSimilarity]
  | some a, some b =>
    simp only [calculateEnhancedSimilarity]
    split_ifs with h1 h2 h3
    · exact ⟨le_refl 0, by norm_num⟩
    · exact ⟨le_refl 0, by norm_num⟩
    · exact ⟨le_refl 0, by norm_num⟩
    · push_neg at h3
      have hcln := normCosR_nonneg a b
      have hclu := normCosR_le_one a b h3.1 h3.2
      have hk0 := keywordScoreR_nonneg t1 t2
      have hk1 := keywordScoreR_le_one t1 t2
      have hs0 := sectionScoreR_nonneg t1 t2
      have hs1 := sectionScoreR_le_one t1 t2
      unfold normCosR at hcln hclu
      constructor <;> linarith

/-! ### C1: the scorer formula -/

lemma sumsqR_ne_zero_length (a : List ℝ) (h : sumsqR a ≠ 0) : a.length ≠ 0 := by
  intro hl
  exact h (by simp [List.length_eq_zero.mp hl, sumsqR])

lemma sqrt_sumsqR_ne_zero (a : List ℝ) (h : sumsqR a ≠ 0) :
    Real.sqrt (sumsqR a) ≠ 0 := by
  intro h0
  exact h (le_antisymm (Real.sqrt_eq_zero'.mp h0) (sumsqR_nonneg a))

/-- Variant of `calcSim_formula` whose hypotheses are the claim's
"equal-length, nonzero-magnitude" side conditions. -/
lemma calcSim_formula' (a b : List ℝ) (t1 t2 : String) (hlen : a.length = b.length)
    (hm1 : sumsqR a ≠ 0) (hm2 : sumsqR b ≠ 0) :
    calculateEnhancedSimilarity (some a) (some b) t1 t2 =
      normCosR a b * 0.7 + keywordScoreR t1 t2 * 0.2 + sectionScoreR t1 t2 * 0.1 := by
  refine calcSim_formula a b t1 t2 ?_ hlen ?_
  · rintro (h | h)
    exacts [sumsqR_ne_zero_length a hm1 h, sumsqR_ne_zero_length b hm2 h]
  · rintro (h | h)
    exacts [sqrt_sumsqR_ne_zero a hm1 h, sqrt_sumsqR_ne_zero b hm2 h]

/-- Modelled from the claim's wording for C1: "the size of the intersection
of the two texts' lowercased whitespace-split tokens of length > 3" — the
cardinality of the set intersection of the two token collections. -/
def specTokenInterCard (t1 t2 : String) : Nat :=
  ((jsKeywords t1).toFinset ∩ (jsKeywords t2).toFinset).card

/-- Modelled from the claim's wording for C1: the asserted score
`0.7*max(0,(c+1)/2) + 0.2*k + 0.1*s` with `k` built from the set
intersection of the qualifying tokens. -/
noncomputable def claimScoreC1 (a b : List ℝ) (t1 t2 : String) : ℝ :=
  0.7 * max 0 ((dotR a b / (Real.sqrt (sumsqR a) * Real.sqrt (sumsqR b)) + 1) / 2) +
  0.2 * ((specTokenInterCard t1 t2 : ℝ) / (kwDenom t1 t2 : ℝ)) +
  0.1 * sectionScoreR t1 t2

lemma sumsqR_one : sumsqR [(1 : ℝ)] = 1 := by
  simp [sumsqR]

lemma dotR_one : dotR [(1 : ℝ)] [(1 : ℝ)] = 1 := by
  simp [dotR]

lemma normCosR_one : normCosR [(1 : ℝ)] [(1 : ℝ)] = 1 := by
  rw [normCosR, sumsqR_one, dotR_one, Real.sqrt_one]
  norm_num

/-- C1 counterexample: on the texts "aaaa bbbb aaaa" / "aaaa cccc" with
identical one-dimensional embeddings, the code's keyword count (tokens of
the first text occurring in the second, counted with multiplicity: 2)
differs from the claimed set-intersection size (1), so the score is
`0.7 + (2/3)*0.2` rather than the claimed `0.7 + 0.2*(1/3)`. -/
theorem C1_counterexample :
    calculateEnhancedSimilarity (some [1]) (some [1]) "aaaa bbbb aaaa" "aaaa cccc" ≠
      claimScoreC1 [1] [1] "aaaa bbbb aaaa" "aaaa cccc" := by
  rw [calcSim_formula' [1] [1] "aaaa bbbb aaaa" "aaaa cccc" rfl
    (by rw [sumsqR_one]; norm_num) (by rw [sumsqR_one]; norm_num)]
  rw [claimScoreC1, normCosR_one, sumsqR_one, dotR_one, Real.sqrt_one]
  rw [keywordScoreR, sectionScoreR]
  rw [show kwInterCount "aaaa bbbb aaaa" "aaaa cccc" = 2 from by decide,
    show kwDenom "aaaa bbbb aaaa" "aaaa cccc" = 3 from by decide,
    show specTokenInterCard "aaaa bbbb aaaa" "aaaa cccc" = 1 from by decide,
    show sectionMatchCount "aaaa bbbb aaaa" = 0 from by decide,
    show sectionMatchCount "aaaa cccc" = 0 from by decide]
  norm_num

/-- C1 (amended): for equal-length embeddings of non-zero magnitude the
scorer returns `0.7*max(0,(c+1)/2) + 0.2*k + 0.1*s`, where `k` counts the
tokens of the first text that occur in the second *with multiplicity*
(`keywords1.filter(k => keywords2.includes(k)).length`), divided by
`max(|tokens1|, |tokens2|, 1)`, and `s` is the section-structure ratio. -/
theorem C1_amended_scorer_formula (a b : List ℝ) (t1 t2 : String)
    (hlen : a.length = b.length) (hm1 : sumsqR a ≠ 0) (hm2 : sumsqR b ≠ 0) :
    calculateEnhancedSimilarity (some a) (some b) t1 t2 =
      0.7 * max 0 ((dotR a b / (Real.sqrt (sumsqR a) * Real.sqrt (sumsqR b)) + 1) / 2) +
      0.2 * ((kwInterCount t1 t2 : ℝ) / (kwDenom t1 t2 : ℝ)) +
      0.1 * ((min (sectionMatchCount t1) (sectionMatchCount t2) : ℝ) /
        (max (sectionMatchCount t1) (max (sectionMatchCount t2) 1) : ℝ)) := by
  rw [calcSim_formula' a b t1 t2 hlen hm1 hm2, normCosR, keywordScoreR, sectionScoreR]
  ring

/-- C1 witness: the amended formula instantiated at concrete vectors and
texts. -/
theorem C1_amended_scorer_formula_witness :
    ([(1 : ℝ)] : List ℝ).length = ([(1 : ℝ)] : List ℝ).length ∧
    sumsqR [(1 : ℝ)] ≠ 0 ∧
    calculateEnhancedSimilarity (some [1]) (some [1]) "aaaa" "bbbb" =
      0.7 * max 0 ((dotR [1] [1] /
          (Real.sqrt (sumsqR [1]) * Real.sqrt (sumsqR [1])) + 1) / 2) +
      0.2 * ((kwInterCount "aaaa" "bbbb" : ℝ) / (kwDenom "aaaa" "bbbb" : ℝ)) +
      0.1 * ((min (sectionMatchCount "aaaa") (sectionMatchCount "bbbb") : ℝ) /
        (max (sectionMatchCount "aaaa") (max (sectionMatchCount "bbbb") 1) : ℝ)) :=
  ⟨rfl, by rw [sumsqR_one]; norm_num,
   C1_amended_scorer_formula [1] [1] "aaaa" "bbbb" rfl
     (by rw [sumsqR_one]; norm_num) (by rw [sumsqR_one]; norm_num)⟩

/-! ### C4: symmetry of the scorer -/

lemma dotR_comm (a b : List ℝ) : dotR a b = dotR b a := by
  unfold dotR
  rw [List.zipWith_comm_of_comm _ mul_comm]

lemma normCosR_comm (a b : List ℝ) : normCosR a b = normCosR b a := by
  unfold normCosR
  rw [dotR_comm, mul_comm (Real.sqrt (sumsqR a))]

lemma sectionScoreR_comm (t1 t2 : String) : sectionScoreR t1 t2 = sectionScoreR t2 t1 := by
  unfold sectionScoreR
  rw [min_comm, max_left_comm]

lemma kwInterCount_comm_of_nodup (t1 t2 : String) (h1 : (jsKeywords t1).Nodup)
    (h2 : (jsKeywords t2).Nodup) : kwInterCount t1 t2 = kwInterCount t2 t1 := by
  have key : ∀ (l1 l2 : List (List Char)), l1.Nodup →
      (l1.filter (fun k => l2.contains k)).length =
        (l1.toFinset ∩ l2.toFinset).card := by
    intro l1 l2 h
    rw [← List.toFinset_card_of_nodup (h.filter _), List.toFinset_filter]
    congr 1
    ext x
    simp [List.contains, List.elem_iff]
  unfold kwInterCount
  rw [key _ _ h1, key _ _ h2, Finset.inter_comm]

lemma keywordScoreR_comm_of_nodup (t1 t2 : String) (h1 : (jsKeywords t1).Nodup)
    (h2 : (jsKeywords t2).Nodup) : keywordScoreR t1 t2 = keywordScoreR t2 t1 := by
  unfold keywordScoreR kwDenom
  rw [kwInterCount_comm_of_nodup t1 t2 h1 h2, max_left_comm,
    max_comm (jsKeywords t1).length]

/-- C4 counterexample: with identical embeddings `[1]` and the texts
"aaaa aaaa" / "aaaa", swapping the arguments changes the score
(`0.7 + 0.2*1` versus `0.7 + 0.2*(1/2)`): the keyword subscore counts the
*first* text's tokens with multiplicity, so it is not symmetric. -/
theorem C4_counterexample :
    calculateEnhancedSimilarity (some [1]) (some [1]) "aaaa aaaa" "aaaa" ≠
      calculateEnhancedSimilarity (some [1]) (some [1]) "aaaa" "aaaa aaaa" := by
  rw [calcSim_formula' [1] [1] "aaaa aaaa" "aaaa" rfl
      (by rw [sumsqR_one]; norm_num) (by rw [sumsqR_one]; norm_num),
    calcSim_formula' [1] [1] "aaaa" "aaaa aaaa" rfl
      (by rw [sumsqR_one]; norm_num) (by rw [sumsqR_one]; norm_num)]
  rw [keywordScoreR, keywordScoreR, sectionScoreR, sectionScoreR]
  rw [show kwInterCount "aaaa aaaa" "aaaa" = 2 from by decide,
    show kwInterCount "aaaa" "aaaa aaaa" = 1 from by decide,
    show kwDenom "aaaa aaaa" "aaaa" = 2 from by decide,
    show kwDenom "aaaa" "aaaa aaaa" = 2 from by decide,
    show sectionMatchCount "aaaa aaaa" = 0 from by decide,
    show sectionMatchCount "aaaa" = 0 from by decide]
  intro h
  have h2 := add_left_cancel (add_right_cancel h)
  norm_num at h2

/-- C4 (amended): the cosine and section-structure subscores are symmetric
under swapping the two (embedding, text) arguments unconditionally, and the
keyword subscore — hence the whole score — is symmetric whenever neither
text's qualifying-token list contains a duplicate (in general the keyword
subscore counts the first argument's duplicates and symmetry can fail). -/
theorem C4_amended_symmetry (a b : List ℝ) (t1 t2 : String)
    (h1 : (jsKeywords t1).Nodup) (h2 : (jsKeywords t2).Nodup) :
    calculateEnhancedSimilarity (some a) (some b) t1 t2 =
      calculateEnhancedSimilarity (some b) (some a) t2 t1 ∧
    normCosR a b = normCosR b a ∧
    sectionScoreR t1 t2 = sectionScoreR t2 t1 ∧
    keywordScoreR t1 t2 = keywordScoreR t2 t1 := by
  refine ⟨?_, normCosR_comm a b, sectionScoreR_comm t1 t2,
    keywordScoreR_comm_of_nodup t1 t2 h1 h2⟩
  by_cases hm : sumsqR a = 0 ∨ sumsqR b = 0
  · rcases hm with hm | hm
    · rw [calcSim_zero_sumsq_left a b t1 t2 hm, calcSim_zero_sumsq_right b a t2 t1 hm]
    · rw [calcSim_zero_sumsq_right a b t1 t2 hm, calcSim_zero_sumsq_left b a t2 t1 hm]
  · push_neg at hm
    by_cases hlen : a.length = b.length
    · rw [calcSim_formula' a b t1 t2 hlen hm.1 hm.2,
        calcSim_formula' b a t2 t1 hlen.symm hm.2 hm.1,
        normCosR_comm, sectionScoreR_comm t1 t2,
        keywordScoreR_comm_of_nodup t1 t2 h1 h2]
    · rw [calcSim_len_mismatch a b t1 t2 hlen,
        calcSim_len_mismatch b a t2 t1 (Ne.symm hlen)]

/-- Witness for C4: the texts "aaaa" and "bbbb cccc" have duplicate-free
qualifying-token lists, and the scorer is indeed symmetric on them with
embeddings `[1, 2]` and `[3, 4]`. -/
theorem C4_amended_symmetry_witness :
    (jsKeywords "aaaa").Nodup ∧ (jsKeywords "bbbb cccc").Nodup ∧
    calculateEnhancedSimilarity (some [(1 : ℝ), 2]) (some [3, 4]) "aaaa" "bbbb cccc" =
      calculateEnhancedSimilarity (some [3, 4]) (some [(1 : ℝ), 2]) "bbbb cccc" "aaaa" :=
  ⟨by decide, by decide,
    (C4_amended_symmetry [1, 2] [3, 4] "aaaa" "bbbb cccc" (by decide) (by decide)).1⟩

/-! ### C8: the two scoring call sites -/

lemma chatbotScore_formula (a b : List ℝ) (t1 t2 : String)
    (hlen : a.length = b.length) (hm1 : sumsqR a ≠ 0) (hm2 : sumsqR b ≠ 0) :
    chatbotCandidateScore a b t1 t2 =
      some (normCosR a b * 0.7 + keywordScoreR t1 t2 * 0.3) := by
  simp only [chatbotCandidateScore, normCosR]
  rw [if_neg (by simpa using hlen)]
  rw [if_neg ?_]
  rintro (h | h)
  exacts [sqrt_sumsqR_ne_zero a hm1 h, sqrt_sumsqR_ne_zero b hm2 h]

/-- C8 counterexample: for the identical pair `[1]` / `[1]` with both texts
"aaaa", the job-description call site (ChatbotPage) scores
`0.7*1 + 0.3*1 = 1`, while the peer-resume call site (FilesPage) scores
`0.7*1 + 0.2*1 + 0.1*0 = 0.9` — the two sites do not use the same
formula. -/
theorem C8_counterexample :
    chatbotCandidateScore [1] [1] "aaaa" "aaaa" ≠
      some (calculateEnhancedSimilarity (some [1]) (some [1]) "aaaa" "aaaa") := by
  rw [chatbotScore_formula [1] [1] "aaaa" "aaaa" rfl
      (by rw [sumsqR_one]; norm_num) (by rw [sumsqR_one]; norm_num),
    calcSim_formula' [1] [1] "aaaa" "aaaa" rfl
      (by rw [sumsqR_one]; norm_num) (by rw [sumsqR_one]; norm_num)]
  rw [normCosR_one, keywordScoreR, sectionScoreR]
  rw [show kwInterCount "aaaa" "aaaa" = 1 from by decide,
    show kwDenom "aaaa" "aaaa" = 1 from by decide,
    show sectionMatchCount "aaaa" = 0 from by decide]
  intro h
  have h' := Option.some.inj h
  norm_num at h'

/-- C8 (amended): the job-description call site computes
`0.7*normalizedCosine + 0.3*keyword` with no section-structure term, so on
identical non-degenerate inputs the two call sites agree exactly when the
section-structure subscore equals the keyword-overlap subscore. -/
theorem C8_amended_call_sites (a b : List ℝ) (t1 t2 : String)
    (hlen : a.length = b.length) (hm1 : sumsqR a ≠ 0) (hm2 : sumsqR b ≠ 0) :
    chatbotCandidateScore a b t1 t2 =
      some (normCosR a b * 0.7 + keywordScoreR t1 t2 * 0.3) ∧
    (chatbotCandidateScore a b t1 t2 =
        some (calculateEnhancedSimilarity (some a) (some b) t1 t2) ↔
      sectionScoreR t1 t2 = keywordScoreR t1 t2) := by
  have hc := chatbotScore_formula a b t1 t2 hlen hm1 hm2
  refine ⟨hc, ?_⟩
  rw [hc, calcSim_formula' a b t1 t2 hlen hm1 hm2]
  constructor
  · intro h
    have h' := Option.some.inj h
    linarith
  · intro h
    rw [h]
    congr 1
    ring

/-- C8 witness: both call sites at a concrete input where the keyword and
section subscores coincide. -/
theorem C8_amended_call_sites_witness :
    ([(1 : ℝ)] : List ℝ).length = ([(1 : ℝ)] : List ℝ).length ∧
    sumsqR [(1 : ℝ)] ≠ 0 ∧
    chatbotCandidateScore [1] [1] "education" "education" =
      some (normCosR [1] [1] * 0.7 + keywordScoreR "education" "education" * 0.3) :=
  ⟨rfl, by rw [sumsqR_one]; norm_num,
   (C8_amended_call_sites [1] [1] "education" "education" rfl
     (by rw [sumsqR_one]; norm_num) (by rw [sumsqR_one]; norm_num)).1⟩

/-! ### Ranking: order and stability lemmas -/

open Classical in
/-- The sub-sequence of results carrying one fixed score, used to state
stability of the sort. -/
noncomputable def sameScoreSubseq (s : ℝ) : List ScoredResume → List ScoredResume
  | [] => []
  | r :: rs =>
    if r.similarity = s then r :: sameScoreSubseq s rs else sameScoreSubseq s rs

lemma mem_insertDescBySim (x z : ScoredResume) (l : List ScoredResume) :
    z ∈ insertDescBySim x l ↔ z = x ∨ z ∈ l := by
  induction l with
  | nil => simp [insertDescBySim]
  | cons y ys ih =>
    simp only [insertDescBySim]
    split_ifs with h
    · simp only [List.mem_cons, ih]
      tauto
    · simp [List.mem_cons]

lemma insertDescBySim_pairwise (x : ScoredResume) (l : List ScoredResume)
    (h : l.Pairwise (fun u v => v.similarity ≤ u.similarity)) :
    (insertDescBySim x l).Pairwise (fun u v => v.similarity ≤ u.similarity) := by
  induction l with
  | nil => simp [insertDescBySim]
  | cons y ys ih =>
    simp only [insertDescBySim]
    rcases List.pairwise_cons.mp h with ⟨hy, hys⟩
    split_ifs with hlt
    · refine List.pairwise_cons.mpr ⟨?_, ih hys⟩
      intro z hz
      rcases (mem_insertDescBySim x z ys).mp hz with rfl | hz
      · exact le_of_lt hlt
      · exact hy z hz
    · refine List.pairwise_cons.mpr ⟨?_, h⟩
      intro z hz
      rcases List.mem_cons.mp hz with rfl | hz
      · exact not_lt.mp hlt
      · exact le_trans (hy z hz) (not_lt.mp hlt)

lemma stableSortDesc_pairwise (l : List ScoredResume) :
    (stableSortDesc l).Pairwise (fun u v => v.similarity ≤ u.similarity) := by
  induction l with
  | nil => simp [stableSortDesc]
  | cons x xs ih => exact insertDescBySim_pairwise x (stableSortDesc xs) ih

lemma sameScoreSubseq_insertDesc (s : ℝ) (x : ScoredResume) (l : List ScoredResume) :
    sameScoreSubseq s (insertDescBySim x l) =
      if x.similarity = s then x :: sameScoreSubseq s l else sameScoreSubseq s l := by
  induction l with
  | nil => rfl
  | cons y ys ih =>
    simp only [insertDescBySim]
    by_cases hlt : x.similarity < y.similarity
    · rw [if_pos hlt]
      show (if y.similarity = s then y :: sameScoreSubseq s (insertDescBySim x ys)
          else sameScoreSubseq s (insertDescBySim x ys)) = _
      rw [ih]
      have hR : sameScoreSubseq s (y :: ys) =
          if y.similarity = s then y :: sameScoreSubseq s ys
          else sameScoreSubseq s ys := rfl
      rw [hR]
      split_ifs with g1 g2 <;> try rfl
      · rw [g1, g2] at hlt
        exact absurd hlt (lt_irrefl s)
    · rw [if_neg hlt]
      rfl

lemma sameScoreSubseq_sortDesc (s : ℝ) (l : List ScoredResume) :
    sameScoreSubseq s (stableSortDesc l) = sameScoreSubseq s l := by
  induction l with
  | nil => rfl
  | cons x xs ih =>
    show sameScoreSubseq s (insertDescBySim x (stableSortDesc xs)) = _
    rw [sameScoreSubseq_insertDesc, ih]
    rfl

lemma sameScoreSubseq_take_prefix (s : ℝ) (n : Nat) :
    ∀ l : List ScoredResume, sameScoreSubseq s (l.take n) <+: sameScoreSubseq s l := by
  induction n with
  | zero => intro l; simp [sameScoreSubseq, List.nil_prefix]
  | succ m ih =>
    intro l
    cases l with
    | nil => simp
    | cons r rs =>
      rw [List.take_succ_cons]
      show (if r.similarity = s then r :: sameScoreSubseq s (rs.take m)
          else sameScoreSubseq s (rs.take m)) <+:
        (if r.similarity = s then r :: sameScoreSubseq s rs else sameScoreSubseq s rs)
      split_ifs with h
      · exact (List.prefix_cons_inj r).mpr (ih rs)
      · exact ih rs

/-! ### C7 and C10: the ranking engine -/

/-- Modelled from claim C7's wording: exclude the query by identity,
exclude only documents lacking *both* embedding and text, score the rest,
sort descending (stably), truncate to `topK`; an empty corpus or a query
with no usable embedding yields `[]`. -/
noncomputable def rankPerClaimC7 (resumes : List Resume) (query : Resume)
    (topK : Nat) : List ScoredResume :=
  if resumes.isEmpty || !truthyEmbedding query.embedding then []
  else
    (stableSortDesc ((resumes.filter (fun r =>
        r.id != query.id && (truthyEmbedding r.embedding || truthyContent r.content))).map
      (fun r => ⟨r, calculateEnhancedSimilarity query.embedding r.embedding
        (query.content.getD "") (r.content.getD "")⟩))).take topK

/-- The scored eligible candidates of the code's pipeline. -/
noncomputable def scoredEligible (resumes : List Resume) (query : Resume) :
    List ScoredResume :=
  (resumes.filter (fun r =>
      r.id != query.id && truthyEmbedding r.embedding && truthyContent r.content)).map
    (fun r => ⟨r, calculateEnhancedSimilarity query.embedding r.embedding
      (query.content.getD "") (r.content.getD "")⟩)

/-- Modelled from the amended claim C7: like `rankPerClaimC7` but excluding
every document that lacks an embedding *or* has missing/empty text, and
returning `[]` when the query lacks an embedding or has missing/empty
text. -/
noncomputable def rankAmendedC7 (resumes : List Resume) (query : Resume)
    (topK : Nat) : List ScoredResume :=
  if !truthyEmbedding query.embedding || !truthyContent query.content then []
  else (stableSortDesc (scoredEligible resumes query)).take topK

/-- C7 counterexample: a corpus document that has text but no embedding is
dropped by the code (`findSimilarResumes` returns `[]`), while the claim's
exclusion rule ("lacking both embedding and text") would keep and score
it. -/
theorem C7_counterexample :
    findSimilarResumes [⟨"a", none, some "aaaa"⟩] ⟨"q", some [1], some "xxxx"⟩ 5 = [] ∧
    rankPerClaimC7 [⟨"a", none, some "aaaa"⟩] ⟨"q", some [1], some "xxxx"⟩ 5 ≠ [] := by
  constructor
  · simp [findSimilarResumes, truthyEmbedding, truthyContent,
      show (("a" : String) != "q") = true from rfl,
      show ("xxxx" : String).isEmpty = false from rfl, stableSortDesc]
  · simp only [rankPerClaimC7, truthyEmbedding, truthyContent]
    rw [if_neg (by simp)]
    simp only [List.filter_cons, show (("a" : String) != "q") = true from rfl,
      show ("aaaa" : String).isEmpty = false from rfl]
    simp [stableSortDesc, insertDescBySim]

/-- C7 (amended): the ranking pipeline equals the amended description —
exclude the query by identity, exclude documents lacking an embedding or
having missing/empty text, score the rest with the hybrid scorer, sort
descending stably, truncate to `topK` — and: a query lacking an embedding
or text, or an empty corpus, yields `[]`; the result has at most `topK`
entries, is sorted by non-increasing score, and ties keep the corpus
order (the equal-score sub-sequence of the result is a prefix of the
corpus-ordered equal-score sub-sequence). -/
theorem C7_amended_ranking (resumes : List Resume) (query : Resume) (k : Nat) :
    findSimilarResumes resumes query k = rankAmendedC7 resumes query k ∧
    (truthyEmbedding query.embedding = false ∨ truthyContent query.content = false →
      findSimilarResumes resumes query k = []) ∧
    (resumes = [] → findSimilarResumes resumes query k = []) ∧
    (findSimilarResumes resumes query k).length ≤ k ∧
    (findSimilarResumes resumes query k).Pairwise
      (fun u v => v.similarity ≤ u.similarity) ∧
    (∀ s : ℝ, sameScoreSubseq s (findSimilarResumes resumes query k) <+:
      sameScoreSubseq s (scoredEligible resumes query)) := by
  have hEq : findSimilarResumes resumes query k = rankAmendedC7 resumes query k := rfl
  refine ⟨hEq, ?_, ?_, ?_, ?_, ?_⟩
  · intro h
    unfold findSimilarResumes
    rcases h with h | h <;> rw [h] <;> simp
  · intro h
    subst h
    unfold findSimilarResumes
    split_ifs <;> simp [stableSortDesc]
  · unfold findSimilarResumes
    split_ifs
    · simp
    · exact le_trans (List.length_take_le _ _) (le_refl _)
  · unfold findSimilarResumes
    split_ifs
    · simp
    · exact (stableSortDesc_pairwise _).sublist (List.take_sublist _ _)
  · intro s
    unfold findSimilarResumes
    split_ifs
    · simp [sameScoreSubseq, List.nil_prefix]
    · calc sameScoreSubseq s ((stableSortDesc (scoredEligible resumes query)).take k)
          <+: sameScoreSubseq s (stableSortDesc (scoredEligible resumes query)) :=
            sameScoreSubseq_take_prefix s k _
        _ = sameScoreSubseq s (scoredEligible resumes query) :=
            sameScoreSubseq_sortDesc s _

/-- C7 witness: the amended behaviour at a concrete degenerate query (no
embedding). -/
theorem C7_amended_ranking_witness :
    truthyEmbedding (Resume.mk "q" none (some "xxxx")).embedding = false ∧
    findSimilarResumes [⟨"a", some [1], some "aaaa"⟩] ⟨"q", none, some "xxxx"⟩ 5 = [] :=
  ⟨rfl, (C7_amended_ranking [⟨"a", some [1], some "aaaa"⟩] ⟨"q", none, some "xxxx"⟩ 5).2.1
    (Or.inl rfl)⟩

/-- C10: if the query document's text content is missing or empty, the
peer-resume ranking returns `[]`, even when the query has a valid
non-empty embedding. -/
theorem C10_query_without_content_yields_empty (resumes : List Resume)
    (target : Resume) (k : Nat)
    (h : target.content = none ∨ target.content = some "") :
    findSimilarResumes resumes target k = [] := by
  unfold findSimilarResumes
  have hc : truthyContent target.content = false := by
    rcases h with h | h
    · simp [h, truthyContent]
    · simp only [h, truthyContent]
      decide
  rw [hc]
  simp

/-- C10 witness: a query with a valid embedding but missing content. -/
theorem C10_query_without_content_yields_empty_witness :
    (Resume.mk "q" (some [1, 0]) none).content = none ∧
    findSimilarResumes [⟨"a", some [1, 0], some "skills python"⟩]
      ⟨"q", some [1, 0], none⟩ 5 = [] :=
  ⟨rfl, C10_query_without_content_yields_empty _ _ 5 (Or.inl rfl)⟩

/-! ### C5: error handling of the embedding client -/

lemma genAux_rl_step (text : String) (cache : Cache) (rr : Nat)
    (rs : List FetchResponse) (ht : trimList text.data ≠ [])
    (hm : cacheLookup cache (cacheKey text) = none) :
    generateEmbeddingAux text (rr + 1) cache (.rateLimited :: rs) =
      ⟨(generateEmbeddingAux text rr cache rs).result,
       (generateEmbeddingAux text rr cache rs).cache,
       (generateEmbeddingAux text rr cache rs).fetches + 1,
       jsPow2 ((4 : ℤ) - ((rr + 1 : Nat) : ℤ)) * 1000 ::
         (generateEmbeddingAux text rr cache rs).delays,
       finalTextOf text :: (generateEmbeddingAux text rr cache rs).sent⟩ := by
  conv_lhs => rw [generateEmbeddingAux]
  rw [if_neg (fun h => ht (List.length_eq_zero.mp h))]
  simp only [hm]
  norm_cast

lemma genAux_first_fetch (text : String) (cache : Cache) (retries : Nat)
    (r : FetchResponse) (rs : List FetchResponse) (ht : trimList text.data ≠ [])
    (hm : cacheLookup cache (cacheKey text) = none)
    (hr : r = .httpError 0 ∨ (∃ s, r = .httpError s) ∨ r = .ok none ∨ r = .ok (some [])) :
    generateEmbeddingAux text retries cache (r :: rs) =
      ⟨[], cache, 1, [], [finalTextOf text]⟩ := by
  conv_lhs => rw [generateEmbeddingAux]
  rw [if_neg (fun h => ht (List.length_eq_zero.mp h))]
  simp only [hm]
  rcases hr with rfl | ⟨s, rfl⟩ | rfl | rfl <;> rfl

lemma genAux_zero_rl (text : String) (cache : Cache) (rs : List FetchResponse)
    (ht : trimList text.data ≠ []) (hm : cacheLookup cache (cacheKey text) = none) :
    generateEmbeddingAux text 0 cache (.rateLimited :: rs) =
      ⟨[], cache, 1, [], [finalTextOf text]⟩ := by
  conv_lhs => rw [generateEmbeddingAux]
  rw [if_neg (fun h => ht (List.length_eq_zero.mp h))]
  simp only [hm]

/-- C5: the embedding client absorbs every failure into the empty vector.
An empty-after-trim input returns `[]` without any `fetch`; four
consecutive HTTP 429 responses (the initial attempt plus the 3 retries)
produce waits of 2000, 4000 and 8000 milliseconds and then the empty
vector; any other non-2xx response, a malformed payload, or an empty
response vector returns the empty vector after exactly one `fetch` with no
retry and no delay.  The cache is left untouched in every failure case. -/
theorem C5_embedding_client_failures (text : String) (cache : Cache)
    (rest : List FetchResponse) (status : Nat) :
    (trimList text.data = [] →
      ∀ (retries : Nat) (responses : List FetchResponse),
        generateEmbeddingAux text retries cache responses = ⟨[], cache, 0, [], []⟩) ∧
    (trimList text.data ≠ [] → cacheLookup cache (cacheKey text) = none →
      generateEmbedding text cache
          (.rateLimited :: .rateLimited :: .rateLimited :: .rateLimited :: rest) =
        ⟨[], cache, 4, [2000, 4000, 8000],
         [finalTextOf text, finalTextOf text, finalTextOf text, finalTextOf text]⟩ ∧
      generateEmbedding text cache (.httpError status :: rest) =
        ⟨[], cache, 1, [], [finalTextOf text]⟩ ∧
      generateEmbedding text cache (.ok none :: rest) =
        ⟨[], cache, 1, [], [finalTextOf text]⟩ ∧
      generateEmbedding text cache (.ok (some []) :: rest) =
        ⟨[], cache, 1, [], [finalTextOf text]⟩) := by
  constructor
  · intro h retries responses
    conv_lhs => rw [generateEmbeddingAux]
    rw [if_pos (by rw [h]; rfl)]
  · intro ht hm
    refine ⟨?_, ?_, ?_, ?_⟩
    · have h3 : generateEmbeddingAux text 3 cache
          (.rateLimited :: .rateLimited :: .rateLimited :: .rateLimited :: rest) = _ :=
        genAux_rl_step text cache 2 (.rateLimited :: .rateLimited :: .rateLimited :: rest)
          ht hm
      have h2 : generateEmbeddingAux text 2 cache
          (.rateLimited :: .rateLimited :: .rateLimited :: rest) = _ :=
        genAux_rl_step text cache 1 (.rateLimited :: .rateLimited :: rest) ht hm
      have h1 : generateEmbeddingAux text 1 cache
          (.rateLimited :: .rateLimited :: rest) = _ :=
        genAux_rl_step text cache 0 (.rateLimited :: rest) ht hm
      have h0 := genAux_zero_rl text cache rest ht hm
      show generateEmbeddingAux text 3 cache _ = _
      rw [h3, h2, h1, h0]
      have w1 : jsPow2 ((4 : ℤ) - ((3 : Nat) : ℤ)) * 1000 = 2000 := by
        norm_num [jsPow2, qpow2]
      have w2 : jsPow2 ((4 : ℤ) - ((2 : Nat) : ℤ)) * 1000 = 4000 := by
        norm_num [jsPow2, qpow2]
      have w3 : jsPow2 ((4 : ℤ) - ((1 : Nat) : ℤ)) * 1000 = 8000 := by
        norm_num [jsPow2, qpow2]
      simp only []
      rw [show ((2 : Nat) + 1 : Nat) = (3 : Nat) from rfl,
        show ((1 : Nat) + 1 : Nat) = (2 : Nat) from rfl,
        show ((0 : Nat) + 1 : Nat) = (1 : Nat) from rfl, w1, w2, w3]
    · exact genAux_first_fetch text cache 3 _ rest ht hm (Or.inr (Or.inl ⟨status, rfl⟩))
    · exact genAux_first_fetch text cache 3 _ rest ht hm (Or.inr (Or.inr (Or.inl rfl)))
    · exact genAux_first_fetch text cache 3 _ rest ht hm (Or.inr (Or.inr (Or.inr rfl)))

/-- C5 witness: the failure scenarios at the concrete input "hello" with an
empty cache. -/
theorem C5_embedding_client_failures_witness :
    trimList "hello".data ≠ [] ∧
    cacheLookup [] (cacheKey "hello") = none ∧
    generateEmbedding "hello" []
        [.rateLimited, .rateLimited, .rateLimited, .rateLimited] =
      ⟨[], [], 4, [2000, 4000, 8000],
       [finalTextOf "hello", finalTextOf "hello", finalTextOf "hello",
        finalTextOf "hello"]⟩ ∧
    generateEmbedding "hello" [] [.httpError 500] = ⟨[], [], 1, [], [finalTextOf "hello"]⟩ ∧
    generateEmbeddingAux "hello" 3 [] [] = ⟨[], [], 1, [], [finalTextOf "hello"]⟩ := by
  refine ⟨by decide, rfl, ?_, ?_, ?_⟩
  · exact ((C5_embedding_client_failures "hello" [] [] 500).2 (by decide) rfl).1
  · exact ((C5_embedding_client_failures "hello" [] [] 500).2 (by decide) rfl).2.1
  · conv_lhs => rw [generateEmbeddingAux]
    rfl

/-! ### C6: cache capacity and FIFO eviction -/

lemma cacheLookup_eq_none_iff (c : Cache) (k : String) :
    cacheLookup c k = none ↔ k ∉ c.map Prod.fst := by
  unfold cacheLookup
  simp only [Option.map_eq_none', List.find?_eq_none, List.mem_map, beq_iff_eq]
  constructor
  · rintro h ⟨p, hp, rfl⟩
    exact h p hp rfl
  · intro h p hp hpk
    exact h ⟨p, hp, hpk⟩

lemma cacheLookup_isSome_of_mem (c : Cache) (k : String)
    (h : k ∈ c.map Prod.fst) : (cacheLookup c k).isSome = true := by
  rcases List.mem_map.mp h with ⟨p, hp, rfl⟩
  unfold cacheLookup
  rw [Option.isSome_map']
  exact List.find?_isSome.mpr ⟨p, hp, by simp⟩

lemma mapSet_fresh (c : Cache) (k : String) (v : List ℚ)
    (h : cacheLookup c k = none) : mapSet c k v = c ++ [(k, v)] := by
  unfold mapSet
  rw [h]
  rfl

lemma insertKeys_append (ks : List String) (k : String) :
    insertKeys (ks ++ [k]) = cachePutLimited (insertKeys ks) k [] := by
  simp [insertKeys, List.foldl_append]

lemma insertKeys_keys (ks : List String) (hnd : ks.Nodup) (hne : ∀ x ∈ ks, x ≠ "") :
    (insertKeys ks).map Prod.fst = ks.drop (ks.length - 100) := by
  induction ks using List.reverseRecOn with
  | nil => rfl
  | append_singleton l a ih =>
    have hsplit := List.nodup_append.mp hnd
    have hl : l.Nodup := hsplit.1
    have hanotin : a ∉ l := fun hmem => hsplit.2.2 hmem (by simp)
    have hne' : ∀ x ∈ l, x ≠ "" := fun x hx => hne x (List.mem_append_left _ hx)
    have hkeys := ih hl hne'
    have hfresh : cacheLookup (insertKeys l) a = none := by
      rw [cacheLookup_eq_none_iff, hkeys]
      intro hmem
      exact hanotin (List.mem_of_mem_drop hmem)
    rw [insertKeys_append]
    unfold cachePutLimited
    rw [mapSet_fresh _ _ _ hfresh]
    have hClen : (insertKeys l).length = l.length - (l.length - 100) := by
      rw [← List.length_map (insertKeys l) Prod.fst, hkeys, List.length_drop]
    by_cases hbig : 100 < (insertKeys l ++ [(a, [])]).length
    · have hCge : 100 ≤ (insertKeys l).length := by
        rw [List.length_append] at hbig
        simp at hbig
        omega
      have hlge : 100 ≤ l.length := by omega
      obtain ⟨⟨k0, v0⟩, C', hC⟩ : ∃ p C', insertKeys l = p :: C' := by
        cases hCeq : insertKeys l with
        | nil => rw [hCeq] at hCge; simp at hCge
        | cons p C' => exact ⟨p, C', rfl⟩
      have hk0 : k0 ≠ "" := by
        have hmem : k0 ∈ (insertKeys l).map Prod.fst := by rw [hC]; simp
        rw [hkeys] at hmem
        exact hne' _ (List.mem_of_mem_drop hmem)
      rw [if_pos hbig, hC]
      simp only [List.cons_append]
      rw [if_pos hk0]
      have htails : C'.map Prod.fst = l.drop (l.length - 100 + 1) := by
        have : ((k0, v0) :: C').map Prod.fst = l.drop (l.length - 100) := by
          rw [← hC, hkeys]
        rw [← List.tail_drop]
        rw [← this]
        rfl
      rw [List.map_append, htails]
      rw [List.length_append]
      have harith : l.length + [a].length - 100 = l.length - 100 + 1 := by
        simp
        omega
      rw [harith, List.drop_append_of_le_length (by omega)]
      rfl
    · rw [if_neg hbig]
      have hlt : l.length < 100 := by
        rw [List.length_append] at hbig
        simp at hbig
        omega
      rw [List.map_append, hkeys]
      have h0 : l.length - 100 = 0 := by omega
      have h1 : (l ++ [a]).length - 100 = 0 := by simp; omega
      rw [h0, h1, List.drop_zero, List.drop_zero]
      rfl

lemma cachePutLimited_bound (c : Cache) (k : String) (v : List ℚ)
    (hk : k ≠ "") (hc : ∀ p ∈ c, p.1 ≠ "") (hlen : c.length ≤ 100) :
    (cachePutLimited c k v).length ≤ 100 ∧
      ∀ p ∈ cachePutLimited c k v, p.1 ≠ "" := by
  unfold cachePutLimited mapSet
  by_cases hs : (cacheLookup c k).isSome
  · rw [if_pos hs]
    have hmlen : (c.map (fun p => if p.1 == k then (k, v) else p)).length = c.length :=
      List.length_map _ _
    rw [if_neg (by rw [hmlen]; omega)]
    refine ⟨by rw [hmlen]; exact hlen, ?_⟩
    intro p hp
    rcases List.mem_map.mp hp with ⟨q, hq, rfl⟩
    by_cases hq1 : q.1 == k
    · rw [if_pos hq1]
      exact hk
    · rw [if_neg hq1]
      exact hc q hq
  · rw [if_neg hs]
    have hkeys1 : ∀ p ∈ c ++ [(k, v)], p.1 ≠ "" := by
      intro p hp
      rcases List.mem_append.mp hp with hp | hp
      · exact hc p hp
      · simp at hp
        rw [hp]
        exact hk
    by_cases hbig : 100 < (c ++ [(k, v)]).length
    · rw [if_pos hbig]
      have hcne : c ≠ [] := by
        intro h
        rw [h] at hbig
        simp at hbig
      obtain ⟨⟨k0, v0⟩, c', rfl⟩ : ∃ p c', c = p :: c' := by
        cases hCeq : c with
        | nil => exact absurd hCeq hcne
        | cons p c' => exact ⟨p, c', rfl⟩
      simp only [List.cons_append]
      have hk0 : k0 ≠ "" := hc (k0, v0) (by simp)
      rw [if_pos hk0]
      constructor
      · have h1 : (c' ++ [(k, v)]).length = c'.length + 1 := by simp
        have h2 : ((k0, v0) :: c').length = c'.length + 1 := by simp
        rw [h1]
        rw [h2] at hlen
        omega
      · intro p hp
        apply hkeys1
        rw [List.cons_append]
        exact List.mem_cons_of_mem _ hp
    · rw [if_neg hbig]
      exact ⟨Nat.not_lt.mp hbig, hkeys1⟩

lemma toBase36Aux_ne_nil (fuel n : Nat) (hf : fuel ≠ 0) (hn : n ≠ 0) :
    toBase36Aux fuel n ≠ [] := by
  cases fuel with
  | zero => exact absurd rfl hf
  | succ f =>
    cases n with
    | zero => exact absurd rfl hn
    | succ m =>
      show toBase36Aux f ((m + 1) / 36) ++ [base36Digit ((m + 1) % 36)] ≠ []
      simp

lemma cacheKey_ne_empty (text : String) : cacheKey text ≠ "" := by
  have hbase : (createHash (jsSubstr text 200 ++ "_3072d")).data ≠ [] := by
    unfold createHash toBase36
    split_ifs with h0
    · simp
    · exact toBase36Aux_ne_nil _ _ h0 h0
  intro h
  have hdata : (createHash (jsSubstr text 200 ++ "_3072d")).data.take 20 = [] :=
    congrArg String.data h
  rcases List.take_eq_nil_iff.mp hdata with h20 | hnil
  · exact absurd h20 (by norm_num)
  · exact hbase hnil

lemma genAux_cache_shape (text : String) :
    ∀ (retries : Nat) (cache : Cache) (responses : List FetchResponse),
      (generateEmbeddingAux text retries cache responses).cache = cache ∨
      ∃ v, (generateEmbeddingAux text retries cache responses).cache =
        cachePutLimited cache (cacheKey text) v := by
  intro retries
  induction retries with
  | zero =>
    intro cache responses
    rw [generateEmbeddingAux]
    split_ifs with h
    · exact Or.inl rfl
    · cases hcl : cacheLookup cache (cacheKey text) with
      | some v =>
        left
        simp only [hcl]
      | none =>
        simp only [hcl]
        cases responses with
        | nil => exact Or.inl rfl
        | cons r rs =>
          cases r with
          | rateLimited => exact Or.inl rfl
          | httpError s => exact Or.inl rfl
          | ok payload =>
            cases payload with
            | none => exact Or.inl rfl
            | some emb =>
              by_cases he : emb.length = 0
              · exact Or.inl (by simp [he])
              · exact Or.inr ⟨emb, by simp [he]⟩
  | succ rr ih =>
    intro cache responses
    rw [generateEmbeddingAux]
    split_ifs with h
    · exact Or.inl rfl
    · cases hcl : cacheLookup cache (cacheKey text) with
      | some v =>
        left
        simp only [hcl]
      | none =>
        simp only [hcl]
        cases responses with
        | nil => exact Or.inl rfl
        | cons r rs =>
          cases r with
          | rateLimited =>
            rcases ih cache rs with hc | ⟨v, hc⟩
            · exact Or.inl hc
            · exact Or.inr ⟨v, hc⟩
          | httpError s => exact Or.inl rfl
          | ok payload =>
            cases payload with
            | none => exact Or.inl rfl
            | some emb =>
              by_cases he : emb.length = 0
              · exact Or.inl (by simp [he])
              · exact Or.inr ⟨emb, by simp [he]⟩

/-- C6 (amended): if the cache before a client call has at most 100
entries, all with non-empty keys (as every key the client produces is —
`cacheKey` is never empty), then after any completed call it again has at
most 100 entries with non-empty keys; and inserting any 101 distinct
*non-empty* keys into an empty cache via the client's insertion step
leaves exactly the 100 most recent keys retrievable, in insertion order,
with the very first key absent.  (Lookups are pure reads — `cacheLookup`
takes and returns no cache — so they cannot affect the eviction order.) -/
theorem C6_amended_cache_capacity_and_fifo :
    (∀ (text : String) (retries : Nat) (cache : Cache)
        (responses : List FetchResponse),
      cache.length ≤ 100 → (∀ p ∈ cache, p.1 ≠ "") →
      (generateEmbeddingAux text retries cache responses).cache.length ≤ 100 ∧
        ∀ p ∈ (generateEmbeddingAux text retries cache responses).cache, p.1 ≠ "") ∧
    (∀ ks : List String, ks.Nodup → ks.length = 101 → (∀ x ∈ ks, x ≠ "") →
      (insertKeys ks).map Prod.fst = ks.tail ∧
      (∀ k ∈ ks.tail, (cacheLookup (insertKeys ks) k).isSome = true) ∧
      ∀ k0, ks.head? = some k0 → cacheLookup (insertKeys ks) k0 = none) := by
  constructor
  · intro text retries cache responses hlen hkeys
    rcases genAux_cache_shape text retries cache responses with hc | ⟨v, hc⟩
    · rw [hc]
      exact ⟨hlen, hkeys⟩
    · rw [hc]
      exact cachePutLimited_bound cache _ v (cacheKey_ne_empty text) hkeys hlen
  · intro ks hnd hlen hne
    have hkeys : (insertKeys ks).map Prod.fst = ks.tail := by
      rw [insertKeys_keys ks hnd hne, hlen, ← List.drop_one]
    refine ⟨hkeys, ?_, ?_⟩
    · intro k hk
      apply cacheLookup_isSome_of_mem
      rw [hkeys]
      exact hk
    · intro k0 hk0
      rw [cacheLookup_eq_none_iff, hkeys]
      cases ks with
      | nil => simp at hk0
      | cons a t =>
        simp at hk0
        subst hk0
        intro hmem
        exact (List.nodup_cons.mp hnd).1 hmem

/-- The 101 distinct keys of the C6 counterexample; the very first is the
empty string, which the eviction guard `if (firstKey)` treats as falsy. -/
def ceCacheKeys : List String :=
  "" :: (List.range 100).map (fun n => String.append "x" (toBase36 n))

/-- C6 counterexample: inserting these 101 distinct keys leaves 101
entries in the cache and the very first inserted key still retrievable —
the eviction step skips deletion because the oldest key is the empty
string, which is falsy in the guard `if (firstKey)`. -/
theorem C6_counterexample :
    ceCacheKeys.Nodup ∧ ceCacheKeys.length = 101 ∧
    (insertKeys ceCacheKeys).length = 101 ∧
    ceCacheKeys.head? = some "" ∧
    (cacheLookup (insertKeys ceCacheKeys) "").isSome = true := by
  refine ⟨by decide, by decide, by decide, rfl, by decide⟩

/-- The nonempty-key witness sequence for C6. -/
def wCacheKeys : List String :=
  (List.range 101).map (fun n => String.append "x" (toBase36 n))

/-- C6 witness: the amended statement at 101 concrete non-empty keys and at
one concrete client call. -/
theorem C6_amended_cache_capacity_and_fifo_witness :
    wCacheKeys.Nodup ∧ wCacheKeys.length = 101 ∧ (∀ x ∈ wCacheKeys, x ≠ "") ∧
    (insertKeys wCacheKeys).map Prod.fst = wCacheKeys.tail ∧
    ([] : Cache).length ≤ 100 ∧
    (generateEmbeddingAux "hello" 3 [] [.ok (some [1])]).cache.length ≤ 100 :=
  ⟨by decide, by decide, by decide,
   (C6_amended_cache_capacity_and_fifo.2 wCacheKeys (by decide) (by decide)
     (by decide)).1,
   by decide,
   (C6_amended_cache_capacity_and_fifo.1 "hello" 3 [] [.ok (some [1])] (by decide)
     (by decide)).1⟩

/-! ### C9: the normalizer cap and raw fallback -/

lemma splitChar_ne_nil (sep : Char) (l : List Char) : splitChar sep l ≠ [] := by
  cases l with
  | nil => simp [splitChar]
  | cons c rest =>
    simp only [splitChar]
    split_ifs with h
    · simp
    · cases splitChar sep rest <;> simp

lemma splitChar_replicate (c : Char) (n : Nat) :
    splitChar c (List.replicate n c) = List.replicate (n + 1) [] := by
  induction n with
  | zero => rfl
  | succ m ih =>
    rw [List.replicate_succ, List.replicate_succ]
    show (if c = c then [] :: splitChar c (List.replicate m c) else _) = _
    rw [if_pos rfl, ih]

lemma splitChar_append_cons (sep : Char) (l : List Char) :
    ∀ (r w : List Char) (ws : List (List Char)), sep ∉ l →
      splitChar sep r = w :: ws → splitChar sep (l ++ r) = (l ++ w) :: ws := by
  induction l with
  | nil =>
    intro r w ws _ hr
    exact hr
  | cons c l' ih =>
    intro r w ws hl hr
    have hc : c ≠ sep := fun h => hl (h ▸ List.mem_cons_self c l')
    have hrec := ih r w ws (fun h => hl (List.mem_cons_of_mem c h)) hr
    show splitChar sep (c :: (l' ++ r)) = _
    simp only [splitChar]
    rw [if_neg hc, hrec]
    rfl

lemma filter_posLen_replicate_nil (n : Nat) :
    (List.replicate n ([] : List Char)).filter (fun l => 0 < l.length) = [] := by
  induction n with
  | zero => rfl
  | succ m ih =>
    rw [List.replicate_succ]
    simp [ih]

/-- The C9 counterexample input: an e-mail followed by 7494 newlines
(7501 characters, no section keywords anywhere). -/
def ceData : List Char := "q@qq.qq".data ++ List.replicate 7494 '\n'

/-- The counterexample input as a string. -/
def ceNormInput : String := ⟨ceData⟩

/-- The C9 witness input: 7500 newlines. -/
def wNormInput : String := ⟨List.replicate 7500 '\n'⟩

lemma resumeLines_replicate_nl (n : Nat) :
    resumeLines ⟨List.replicate n '\n'⟩ = [] := by
  show (((splitChar '\n' (List.replicate n '\n')).map trimList).filter _) = []
  rw [splitChar_replicate, List.map_replicate]
  rw [show trimList [] = [] from rfl]
  exact filter_posLen_replicate_nil (n + 1)

lemma resumeLines_ceNorm : resumeLines ceNormInput = ["q@qq.qq".data] := by
  have hsp : splitChar '\n' (List.replicate 7494 '\n') = [] :: List.replicate 7494 [] := by
    rw [splitChar_replicate, List.replicate_succ]
  have hlr : splitChar '\n' ("q@qq.qq".data ++ List.replicate 7494 '\n') =
      ("q@qq.qq".data ++ []) :: List.replicate 7494 [] :=
    splitChar_append_cons '\n' "q@qq.qq".data _ _ _ (by decide) hsp
  show ((splitChar '\n' ("q@qq.qq".data ++ List.replicate 7494 '\n')).map
    trimList).filter (fun l => 0 < l.length) = _
  rw [hlr, List.append_nil, List.map_cons, List.map_replicate,
    show trimList [] = [] from rfl,
    show trimList "q@qq.qq".data = "q@qq.qq".data from rfl, List.filter_cons]
  rw [if_pos (by decide)]
  rw [filter_posLen_replicate_nil 7494]

lemma scan_email_nl (fuel : Nat) : ∀ (n : Nat) (prev : Option Char),
    prev = none ∨ prev = some '\n' ∨ prev = some 'q' →
    scanMatches fuel emailPat prev (List.replicate n '\n') = [] := by
  induction fuel with
  | zero => intro n prev h; rfl
  | succ f ih =>
    intro n prev h
    cases n with
    | zero => rcases h with rfl | rfl | rfl <;> rfl
    | succ m =>
      rw [List.replicate_succ]
      have hnone : matchAt emailPat prev ('\n' :: List.replicate m '\n') = none := by
        rcases h with rfl | rfl | rfl <;> rfl
      simp only [scanMatches, hnone]
      exact ih m (some '\n') (Or.inr (Or.inl rfl))

lemma scan_phone_nl (fuel : Nat) : ∀ (n : Nat) (prev : Option Char),
    scanMatches fuel phonePat prev (List.replicate n '\n') = [] := by
  induction fuel with
  | zero => intro n prev; rfl
  | succ f ih =>
    intro n prev
    cases n with
    | zero => rfl
    | succ m =>
      rw [List.replicate_succ]
      have hnone : matchAt phonePat prev ('\n' :: List.replicate m '\n') = none := rfl
      simp only [scanMatches, hnone]
      exact ih m (some '\n')

lemma emailMatchesOf_wNorm : emailMatchesOf wNormInput = [] := by
  show scanMatches ((List.replicate 7500 '\n').length + 1) emailPat none
    (List.replicate 7500 '\n') = []
  exact scan_email_nl _ 7500 none (Or.inl rfl)

lemma phoneMatchesOf_wNorm : phoneMatchesOf wNormInput = [] := by
  show scanMatches ((List.replicate 7500 '\n').length + 1) phonePat none
    (List.replicate 7500 '\n') = []
  exact scan_phone_nl _ 7500 none

lemma scan_email_ceData (fuel : Nat) :
    scanMatches (fuel + 1) emailPat none ceData =
      "q@qq.qq".data :: scanMatches fuel emailPat (some 'q')
        (List.replicate 7494 '\n') := rfl

lemma emailMatchesOf_ceNorm : emailMatchesOf ceNormInput = ["q@qq.qq".data] := by
  show scanMatches (ceData.length + 1) emailPat none ceData = _
  rw [scan_email_ceData, scan_email_nl _ 7494 (some 'q') (Or.inr (Or.inr rfl))]

lemma scan_step_none (fuel : Nat) (pat : List Tok) (prev : Option Char) (c : Char)
    (s : List Char) (h : matchAt pat prev (c :: s) = none) :
    scanMatches (fuel + 1) pat prev (c :: s) = scanMatches fuel pat (some c) s := by
  simp only [scanMatches, h]

lemma matchAt_phone_q (prev : Option Char) (rest : List Char) :
    matchAt phonePat prev ('q' :: rest) = none := rfl

lemma matchAt_phone_at (prev : Option Char) (rest : List Char) :
    matchAt phonePat prev ('@' :: rest) = none := rfl

lemma matchAt_phone_dot (prev : Option Char) (rest : List Char) :
    matchAt phonePat prev ('.' :: rest) = none := rfl

lemma scan_phone_ceData (fuel : Nat) :
    scanMatches (fuel + 7) phonePat none ceData =
      scanMatches fuel phonePat (some 'q') (List.replicate 7494 '\n') := by
  have e : ceData =
      'q' :: '@' :: 'q' :: 'q' :: '.' :: 'q' :: 'q' :: List.replicate 7494 '\n' := rfl
  rw [e]
  rw [show fuel + 7 = (fuel + 6) + 1 from rfl,
    scan_step_none (fuel + 6) phonePat none 'q' _ (matchAt_phone_q _ _)]
  rw [show fuel + 6 = (fuel + 5) + 1 from rfl,
    scan_step_none (fuel + 5) phonePat (some 'q') '@' _ (matchAt_phone_at _ _)]
  rw [show fuel + 5 = (fuel + 4) + 1 from rfl,
    scan_step_none (fuel + 4) phonePat (some '@') 'q' _ (matchAt_phone_q _ _)]
  rw [show fuel + 4 = (fuel + 3) + 1 from rfl,
    scan_step_none (fuel + 3) phonePat (some 'q') 'q' _ (matchAt_phone_q _ _)]
  rw [show fuel + 3 = (fuel + 2) + 1 from rfl,
    scan_step_none (fuel + 2) phonePat (some 'q') '.' _ (matchAt_phone_dot _ _)]
  rw [show fuel + 2 = (fuel + 1) + 1 from rfl,
    scan_step_none (fuel + 1) phonePat (some '.') 'q' _ (matchAt_phone_q _ _)]
  rw [scan_step_none fuel phonePat (some 'q') 'q' _ (matchAt_phone_q _ _)]

lemma ceData_length : ceData.length = 7501 := by
  rw [show ceData = "q@qq.qq".data ++ List.replicate 7494 '\n' from rfl,
    List.length_append, List.length_replicate,
    show ("q@qq.qq".data).length = 7 from rfl]

lemma phoneMatchesOf_ceNorm : phoneMatchesOf ceNormInput = [] := by
  show scanMatches (ceData.length + 1) phonePat none ceData = []
  rw [show ceData.length + 1 = 7495 + 7 from by rw [ceData_length]]
  rw [scan_phone_ceData 7495]
  exact scan_phone_nl 7495 7494 (some 'q')

lemma strMk_length (l : List Char) : (⟨l⟩ : String).length = l.length := rfl

lemma intercalate_nil_chars :
    List.intercalate "\n".data ([] : List (List Char)) = [] := rfl

/-- C9 (amended): the normalizer's output never exceeds 7500 characters;
the empty input yields the empty output; and an input of at least 7500
characters in which no line matches any section bucket *and* the e-mail
and phone extractors find nothing (the original claim omitted the
contact-info condition) is returned as exactly its first 7500 raw
characters. -/
theorem C9_normalizer_cap_and_fallback (t : String) :
    (preprocessTextForEmbedding t).length ≤ 7500 ∧
    (t = "" → preprocessTextForEmbedding t = "") ∧
    (7500 ≤ t.length → emailMatchesOf t = [] → phoneMatchesOf t = [] →
      educationLinesOf t = [] → skillLinesOf t = [] → experienceLinesOf t = [] →
      achievementLinesOf t = [] →
      preprocessTextForEmbedding t = jsSubstr t 7500) := by
  refine ⟨?_, ?_, ?_⟩
  · simp only [preprocessTextForEmbedding]
    split_ifs <;>
      first
        | (rw [strMk_length, List.length_take]; omega)
        | (rw [strMk_length]; omega)
  · intro h
    subst h
    decide
  · intro hlen hema hpho hedu hskill hexp hach
    simp only [preprocessTextForEmbedding, hema, hpho, hedu, hskill, hexp, hach,
      List.isEmpty_nil, if_true, List.nil_append, List.append_nil,
      intercalate_nil_chars]
    rfl

/-- C9 witness: 7500 newline characters satisfy every hypothesis and are
returned unchanged (they are their own first 7500 characters). -/
theorem C9_normalizer_cap_and_fallback_witness :
    7500 ≤ wNormInput.length ∧ emailMatchesOf wNormInput = [] ∧
    phoneMatchesOf wNormInput = [] ∧ educationLinesOf wNormInput = [] ∧
    preprocessTextForEmbedding wNormInput = jsSubstr wNormInput 7500 := by
  have hlines : resumeLines wNormInput = [] := resumeLines_replicate_nl 7500
  have hedu : educationLinesOf wNormInput = [] := by
    unfold educationLinesOf
    rw [hlines]
    rfl
  have hskill : skillLinesOf wNormInput = [] := by
    unfold skillLinesOf
    rw [hlines]
    rfl
  have hexp : experienceLinesOf wNormInput = [] := by
    unfold experienceLinesOf
    rw [hlines]
    rfl
  have hach : achievementLinesOf wNormInput = [] := by
    unfold achievementLinesOf
    rw [hlines]
    rfl
  have hlen : wNormInput.length = 7500 := by
    rw [show wNormInput = ⟨List.replicate 7500 '\n'⟩ from rfl, strMk_length,
      List.length_replicate]
  exact ⟨by omega, emailMatchesOf_wNorm, phoneMatchesOf_wNorm, hedu,
    (C9_normalizer_cap_and_fallback wNormInput).2.2 (by omega) emailMatchesOf_wNorm
      phoneMatchesOf_wNorm hedu hskill hexp hach⟩

/-- C9 counterexample: `ceNormInput` is 7501 characters with no section
keywords in any line, yet the normalizer returns "Email: q@qq.qq" — the
e-mail extractor fires before the raw-text fallback — not the first 7500
raw characters, refuting the claim as stated. -/
theorem C9_counterexample :
    7500 ≤ ceNormInput.length ∧
    educationLinesOf ceNormInput = [] ∧ skillLinesOf ceNormInput = [] ∧
    experienceLinesOf ceNormInput = [] ∧ achievementLinesOf ceNormInput = [] ∧
    preprocessTextForEmbedding ceNormInput = "Email: q@qq.qq" ∧
    preprocessTextForEmbedding ceNormInput ≠ jsSubstr ceNormInput 7500 := by
  have hlen : ceNormInput.length = 7501 := by
    rw [show ceNormInput = ⟨ceData⟩ from rfl, strMk_length, ceData_length]
  have hedu : educationLinesOf ceNormInput = [] := by
    unfold educationLinesOf
    rw [resumeLines_ceNorm]
    decide
  have hskill : skillLinesOf ceNormInput = [] := by
    unfold skillLinesOf
    rw [resumeLines_ceNorm]
    decide
  have hexp : experienceLinesOf ceNormInput = [] := by
    unfold experienceLinesOf
    rw [resumeLines_ceNorm]
    decide
  have hach : achievementLinesOf ceNormInput = [] := by
    unfold achievementLinesOf
    rw [resumeLines_ceNorm]
    decide
  have hmain : preprocessTextForEmbedding ceNormInput = "Email: q@qq.qq" := by
    simp only [preprocessTextForEmbedding, emailMatchesOf_ceNorm,
      phoneMatchesOf_ceNorm, hedu, hskill, hexp, hach, List.isEmpty_nil, if_true,
      List.nil_append, List.append_nil]
    decide
  refine ⟨by omega, hedu, hskill, hexp, hach, hmain, ?_⟩
  rw [hmain]
  intro heq
  have h2 := congrArg String.length heq
  rw [show ("Email: q@qq.qq" : String).length = 14 from rfl,
    show (jsSubstr ceNormInput 7500).length = (ceNormInput.data.take 7500).length
      from rfl, List.length_take, show ceNormInput.data.length = 7501 from
        by rw [show ceNormInput.data = ceData from rfl, ceData_length]] at h2
  omega
